import Mathlib

/-!
# pgexpect: call recording and typed validation

A shallow embedding of `pgexpect.go` and `sql_functions.go`.

* Go strings are immutable byte sequences (`GoString`); the conversion
  `string(b)` of a `[]uint8` keeps the bytes.
* A value of type `interface{}` is a `Value`: its dynamic type is the constructor.
* The `*testing.T` handle and the `*sqlx.DB` connection are observed through a
  trace of `Action`s: statements sent to the database, the call of the test
  body, `t.Errorf` and `t.Fatalf` reports (each with its format arguments).
* A call ends by returning, by `runtime.Goexit` (what `t.Fatalf` does after
  recording the failure) or by a run-time panic (index out of range, failed
  type assertion).
-/

namespace Pgexpect

/-! ## Data model -/

/-- A Go `string`: a sequence of bytes. -/
abbrev GoString := List UInt8

/-- A string literal of the source, as its UTF-8 bytes. -/
def lit (s : String) : GoString := s.toUTF8.data.toList

/-- Argument define an argument to a function (`pgexpect.go`). The field `Type`
of the source is `Typ` here. -/
structure Argument where
  Name : GoString
  Typ : GoString
  deriving DecidableEq, Repr

/-- The comparable fields of a `time.Time`: `wall`, `ext` and the identity of
the `*Location` (0 for the nil pointer). `==` on `time.Time` compares all three. -/
structure Time where
  wall : Nat
  ext : Int
  loc : Nat
  deriving DecidableEq, Repr

/-- A Go `interface{}` value, tagged by its dynamic type. -/
inductive Value where
  /-- The nil interface: what indexing a map gives for an absent key, and what
  the driver stores for SQL NULL. -/
  | nil
  | time (v : Time)
  | bool (v : Bool)
  | string (v : GoString)
  | uint64 (v : Nat)
  | int64 (v : Int)
  | int32 (v : Int)
  | int (v : Int)
  /-- A `[]uint8`; `none` is the nil slice, `some []` an empty non-nil slice. -/
  | bytes (v : Option (List UInt8))
  /-- A `float64`, by its bit pattern. -/
  | float64 (bits : Nat)
  /-- A value of any other dynamic type. -/
  | other (typeId : Nat) (repr : Nat)
  deriving DecidableEq, Repr

/-- Function defines the function being replaced (`pgexpect.go`). -/
structure Function where
  Name : GoString
  Args : List Argument
  ReturnType : GoString
  Body : GoString
  RaiseErrorCode : GoString
  deriving DecidableEq, Repr

/-- Call defines the calls we are expecting to the function (`pgexpect.go`). -/
structure Call where
  Values : List Value
  deriving DecidableEq, Repr

/-- One recorded call, `map[string]interface{}`, as an association list. -/
abbrev Row := List (GoString × Value)

/-- The map index expression `call[name]`: the value stored under `name`, the nil
interface when the key is absent. -/
def index (call : Row) (name : GoString) : Value :=
  match call.lookup name with
  | some v => v
  | none => Value.nil

/-- An `error` value returned by the database layer. -/
abbrev DbError := GoString

/-- The `t.Fatalf` sites of `sql_functions.go`, each with its format arguments. -/
inductive Fatal where
  /-- "Error while creating the call tracking SQL function %s_calls: %s" -/
  | trackingTable (functionName : GoString) (err : DbError)
  /-- "Error while creating the fake SQL function %s: %s" -/
  | sqlFunction (functionName : GoString) (err : DbError)
  /-- "Error getting calls: %s" -/
  | gettingCalls (err : DbError)
  /-- "Problem with scanning of results to call tracking: %s" -/
  | scanning (err : DbError)
  /-- "We expected one call but got %v" -/
  | callCount (n : Nat)
  /-- "Unknown type for column %s, expected value is %v" -/
  | unknownType (argName : GoString) (expected : Value)
  /-- "Unknown type "%s" for column %s to turn into a string" -/
  | notString (src : Value) (argName : GoString)
  deriving DecidableEq, Repr

/-- What a run does to its collaborators, in order. -/
inductive Action where
  /-- `db.Exec(q)` -/
  | exec (q : GoString)
  /-- `db.Queryx(q)` -/
  | queryx (q : GoString)
  /-- The call of the test body. -/
  | testFunc
  /-- `t.Errorf("[pgexpect] Wrong value for %s. Expected .. but got ..", argName, expected, got)` -/
  | errorf (argName : GoString) (expected got : Value)
  /-- `t.Fatalf(..)` -/
  | fatalf (f : Fatal)
  deriving DecidableEq, Repr

/-- How a call ends. -/
inductive Ending (α : Type) where
  | returned (v : α)
  /-- `runtime.Goexit`, from `t.Fatalf`. -/
  | goexit
  /-- A run-time panic. -/
  | panicked
  deriving DecidableEq, Repr

/-- The observable result of a call: what it did, and how it ended. -/
structure Res (α : Type) where
  trace : List Action
  ending : Ending α
  deriving DecidableEq, Repr

/-- Sequencing: the continuation runs only when the first part returned. -/
def Res.bind {α β : Type} (r : Res α) (f : α → Res β) : Res β :=
  match r.ending with
  | .returned v => ⟨r.trace ++ (f v).trace, (f v).ending⟩
  | .goexit => ⟨r.trace, .goexit⟩
  | .panicked => ⟨r.trace, .panicked⟩

/-- The database connection: each operation maps the database state to a new
state and a result. `Queryx` gives an error or the rows, each of which
`rows.MapScan` turns into a row or an error. -/
structure DB (σ : Type) where
  Exec : σ → GoString → σ × Option DbError
  Queryx : σ → GoString → σ × Except DbError (List (Except DbError Row))

/-- Sequencing of calls that use the database. -/
def andThen {σ α β : Type} (p : σ × Res α) (f : α → σ → σ × Res β) : σ × Res β :=
  match p.2.ending with
  | .returned v => ((f v p.1).1, ⟨p.2.trace ++ (f v p.1).2.trace, (f v p.1).2.ending⟩)
  | .goexit => (p.1, ⟨p.2.trace, .goexit⟩)
  | .panicked => (p.1, ⟨p.2.trace, .panicked⟩)

/-! ## Conversions -/

/-- The conversion `uint64(a)` of an `int64`: the same 64 bits read as unsigned. -/
def toUint64 (a : Int) : Nat := (a % 2 ^ 64).toNat

/-- The conversion `int(a)` of an `int64` where `int` has `intBits` bits: the low
`intBits` bits read as signed. -/
def toInt (intBits : Nat) (a : Int) : Int :=
  (a + 2 ^ (intBits - 1)) % 2 ^ intBits - 2 ^ (intBits - 1)

/-- The conversion `string(v)` of a `[]uint8`. -/
def bytesToString (v : Option (List UInt8)) : GoString :=
  match v with
  | some b => b
  | none => []

/-- `reflect.DeepEqual` on two `[]uint8`: false when exactly one is nil, false
when the lengths differ, otherwise the elements are compared. -/
def deepEqual (x y : Option (List UInt8)) : Bool :=
  match x, y with
  | none, none => true
  | some a, some b => a.length == b.length && a == b
  | _, _ => false

/-- `strings.Join(elems, sep)`. -/
def stringsJoin : List GoString → GoString → GoString
  | [], _ => []
  | [a], _ => a
  | a :: b :: rest, sep => a ++ sep ++ stringsJoin (b :: rest) sep

/-! ## sql_functions.go: statement texts -/

/-- The `"%s %s"` items built from the arguments, joined by `","`: the column list
of the tracking table and the parameter list of the procedure. -/
def argsWithTypes (args : List Argument) : GoString :=
  stringsJoin (args.map fun arg => arg.Name ++ lit " " ++ arg.Typ) (lit ",")

/-- `argNamesReady` of `createCallTrackingTable`. -/
def argNamesReady (args : List Argument) : GoString :=
  stringsJoin (args.map fun arg => arg.Name) (lit ",")

/-- The statement `q` of `createCallTrackingTable`. -/
def trackingTableQuery (functionName : GoString) (args : List Argument) : GoString :=
  lit "\n\t\tDROP TABLE IF EXISTS " ++ functionName ++ lit "_calls;\n\t\tCREATE TABLE "
    ++ functionName ++ lit "_calls (" ++ argsWithTypes args ++ lit ");\n\t"

/-- The `body` returned by `createCallTrackingTable`. -/
def insertStatement (functionName : GoString) (args : List Argument) : GoString :=
  lit "INSERT INTO " ++ functionName ++ lit "_calls (" ++ argNamesReady args
    ++ lit ") VALUES(" ++ argNamesReady args ++ lit ");"

/-- The `raise` statement of `createSQLFunctions`. -/
def raiseStatement (code : GoString) : GoString :=
  lit "RAISE \x27error from pgexpect\x27 USING ERRCODE = \x27" ++ code ++ lit "\x27;"

/-- The statement `q` of `createSQLFunctions`, from the four `%s` arguments. -/
def functionQuery (name argsReadyWithTypes returnType body : GoString) : GoString :=
  lit "\n\t\tCREATE OR REPLACE FUNCTION " ++ name ++ lit "(" ++ argsReadyWithTypes
    ++ lit ") RETURNS " ++ returnType ++ lit "\n\t\t\tAS $$\n\t\t\tBEGIN\n\t\t\t\t"
    ++ body ++ lit "\n\t\t\tEND\n\t\t$$ LANGUAGE plpgsql;\n\t"

/-- The statement `q` of `getCalls`. -/
def selectQuery (functionName : GoString) : GoString :=
  lit "SELECT * FROM " ++ functionName ++ lit "_calls"

/-! ## sql_functions.go: functions -/

/-- `createCallTrackingTable`: executes the drop-and-create statement; `t.Fatalf`
when it fails, the INSERT statement otherwise. -/
def createCallTrackingTable {σ : Type} (db : DB σ) (functionName : GoString)
    (args : List Argument) (s : σ) : σ × Res GoString :=
  let q := trackingTableQuery functionName args
  match db.Exec s q with
  | (s1, some err) => (s1, ⟨[.exec q, .fatalf (.trackingTable functionName err)], .goexit⟩)
  | (s1, none) => (s1, ⟨[.exec q], .returned (insertStatement functionName args)⟩)

/-- `createSQLFunctions`: appends the raise statement to its copy of the body when
an error code is set, executes the CREATE OR REPLACE FUNCTION statement;
`t.Fatalf` when it fails. -/
def createSQLFunctions {σ : Type} (db : DB σ) (function : Function) (s : σ) : σ × Res Unit :=
  let argsReadyWithTypes := argsWithTypes function.Args
  let function :=
    if function.RaiseErrorCode ≠ [] then
      { function with Body := function.Body ++ raiseStatement function.RaiseErrorCode }
    else function
  let q := functionQuery function.Name argsReadyWithTypes function.ReturnType function.Body
  match db.Exec s q with
  | (s1, some err) => (s1, ⟨[.exec q, .fatalf (.sqlFunction function.Name err)], .goexit⟩)
  | (s1, none) => (s1, ⟨[.exec q], .returned ()⟩)

/-- The `for rows.Next()` loop of `getCalls`: a scanned row is appended to `calls`,
a scan error is fatal. -/
def scanRows : List (Except DbError Row) → List Row → Res (List Row)
  | [], calls => ⟨[], .returned calls⟩
  | .error err :: _, _ => ⟨[.fatalf (.scanning err)], .goexit⟩
  | .ok results :: rest, calls => scanRows rest (calls ++ [results])

/-- `getCalls`: selects the rows of the tracking table; `t.Fatalf` when the query
or a scan fails, and when the number of rows is not 1. -/
def getCalls {σ : Type} (db : DB σ) (functionName : GoString) (s : σ) : σ × Res (List Row) :=
  let q := selectQuery functionName
  match db.Queryx s q with
  | (s1, .error err) => (s1, ⟨[.queryx q, .fatalf (.gettingCalls err)], .goexit⟩)
  | (s1, .ok rows) =>
    (s1, (Res.mk [.queryx q] (.returned ())).bind fun _ =>
      (scanRows rows []).bind fun calls =>
        if calls.length ≠ 1 then ⟨[.fatalf (.callCount calls.length)], .goexit⟩
        else ⟨[], .returned calls⟩)

/-- `getString` is used to turn []byte/[]uint8 into strings; `t.Fatalf` for any
other dynamic type. -/
def getString (src : Value) (argName : GoString) : Res GoString :=
  match src with
  | .string v => ⟨[], .returned v⟩
  | .bytes v => ⟨[], .returned (bytesToString v)⟩
  | v => ⟨[.fatalf (.notString v argName)], .goexit⟩

/-- The `if expected != got { t.Errorf(..) }` of every case of the type switch. -/
def reportIf (differ : Bool) (argName : GoString) (expected got : Value) : Res Unit :=
  if differ then ⟨[.errorf argName expected got], .returned ()⟩ else ⟨[], .returned ()⟩

/-- The type switch of `validateCalls` on one expected value: each case asserts
the type it reads from `call[arg.Name]` (a failed assertion panics), converts,
compares; the default case is `t.Fatalf`. -/
def validateValue (intBits : Nat) (call : Row) (arg : Argument) (expected : Value) : Res Unit :=
  match expected with
  | .time e =>
    match index call arg.Name with
    | .time got => reportIf (e != got) arg.Name (.time e) (.time got)
    | _ => ⟨[], .panicked⟩
  | .bool e =>
    match index call arg.Name with
    | .bool got => reportIf (e != got) arg.Name (.bool e) (.bool got)
    | _ => ⟨[], .panicked⟩
  | .string e =>
    (getString (index call arg.Name) arg.Name).bind fun got =>
      reportIf (e != got) arg.Name (.string e) (.string got)
  | .uint64 e =>
    match index call arg.Name with
    | .int64 a => reportIf (e != toUint64 a) arg.Name (.uint64 e) (.uint64 (toUint64 a))
    | _ => ⟨[], .panicked⟩
  | .int64 e =>
    match index call arg.Name with
    | .int64 got => reportIf (e != got) arg.Name (.int64 e) (.int64 got)
    | _ => ⟨[], .panicked⟩
  | .int32 e =>
    match index call arg.Name with
    | .int32 got => reportIf (e != got) arg.Name (.int32 e) (.int32 got)
    | _ => ⟨[], .panicked⟩
  | .int e =>
    match index call arg.Name with
    | .int64 a => reportIf (e != toInt intBits a) arg.Name (.int e) (.int (toInt intBits a))
    | _ => ⟨[], .panicked⟩
  | .bytes e =>
    match index call arg.Name with
    | .bytes got => reportIf (!deepEqual e got) arg.Name (.bytes e) (.bytes got)
    | _ => ⟨[], .panicked⟩
  | e => ⟨[.fatalf (.unknownType arg.Name e)], .goexit⟩

/-- The inner loop of `validateCalls`, over the arguments from index `argIndex` on:
`expectedCalls[callIndex].Values[argIndex]` panics when an index is out of range. -/
def validateArgs (intBits : Nat) (call : Row) (callIndex : Nat) (expectedCalls : List Call) :
    List Argument → Nat → Res Unit
  | [], _ => ⟨[], .returned ()⟩
  | arg :: rest, argIndex =>
    match expectedCalls[callIndex]? with
    | none => ⟨[], .panicked⟩
    | some expectedCall =>
      match expectedCall.Values[argIndex]? with
      | none => ⟨[], .panicked⟩
      | some expected =>
        (validateValue intBits call arg expected).bind fun _ =>
          validateArgs intBits call callIndex expectedCalls rest (argIndex + 1)

/-- The outer loop of `validateCalls`, over the recorded calls from index
`callIndex` on. -/
def validateCallsFrom (intBits : Nat) (expectedCalls : List Call) (args : List Argument) :
    List Row → Nat → Res Unit
  | [], _ => ⟨[], .returned ()⟩
  | call :: rest, callIndex =>
    (validateArgs intBits call callIndex expectedCalls args 0).bind fun _ =>
      validateCallsFrom intBits expectedCalls args rest (callIndex + 1)

/-- `validateCalls`, on a platform whose `int` has `intBits` bits. -/
def validateCalls (intBits : Nat) (calls : List Row) (expectedCalls : List Call)
    (args : List Argument) : Res Unit :=
  validateCallsFrom intBits expectedCalls args calls 0

/-- The call `testFunc(..)`: the test body changes the database state and ends
by returning, by `runtime.Goexit` or by a panic. -/
def runTestFunc {σ : Type} (testFunc : σ → σ × Ending Unit) (s : σ) : σ × Res Unit :=
  ((testFunc s).1, ⟨[.testFunc], (testFunc s).2⟩)

/-- MockFunction replace a function and expect calls to it. -/
def MockFunction {σ : Type} (intBits : Nat) (function : Function) (expectedCalls : List Call)
    (db : DB σ) (testFunc : σ → σ × Ending Unit) (s : σ) : σ × Res Unit :=
  andThen (createCallTrackingTable db function.Name function.Args s) fun body s =>
    let function := { function with Body := body ++ function.Body }
    andThen (createSQLFunctions db function s) fun _ s =>
      andThen (runTestFunc testFunc s) fun _ s =>
        andThen (getCalls db function.Name s) fun calls s =>
          (s, validateCalls intBits calls expectedCalls function.Args)

/-- StubFunction replace a function with a fake version of it. -/
def StubFunction {σ : Type} (function : Function) (db : DB σ) (testFunc : σ → σ × Ending Unit)
    (s : σ) : σ × Res Unit :=
  andThen (createSQLFunctions db function s) fun _ s => runTestFunc testFunc s

/-! ## Concrete inputs -/

/-- The descriptor `add_user(uid bigint, active boolean) RETURNS void` with an
empty body and no error code. -/
def addUser : Function :=
  { Name := lit "add_user"
    Args := [⟨lit "uid", lit "bigint"⟩, ⟨lit "active", lit "boolean"⟩]
    ReturnType := lit "void"
    Body := []
    RaiseErrorCode := [] }

/-- The descriptor `add_user` with a body and the error code P0001. -/
def addUserRaising : Function :=
  { addUser with Body := lit "PERFORM 1;", RaiseErrorCode := lit "P0001" }

/-- The row recorded by the call `add_user(42, true)`. -/
def addUserRow : Row := [(lit "uid", .int64 42), (lit "active", .bool true)]

/-- A database that executes every statement and answers every query with the
rows of its state. -/
def rowsDB : DB (List Row) :=
  { Exec := fun s _ => (s, none)
    Queryx := fun s _ => (s, .ok (s.map .ok)) }

/-- A test body that calls the procedure `n` times with `(42, true)`. -/
def callTimes (n : Nat) (s : List Row) : List Row × Ending Unit :=
  (s ++ List.replicate n addUserRow, .returned ())

/-- A database whose `n`-th `Exec` (counted from 0 in the state) fails when
`failExec n` holds, and whose `Queryx` always answers `answer`. -/
def scriptDB (failExec : Nat → Bool) (answer : Except DbError (List (Except DbError Row))) :
    DB Nat :=
  { Exec := fun n _ => (n + 1, if failExec n then some (lit "syntax error") else none)
    Queryx := fun n _ => (n, answer) }

/-! ## Statements of a run -/

/-- The body that `createSQLFunctions` puts in its statement: the body of the
descriptor it is given, then the raise statement when an error code is set. -/
def bodyWithRaise (function : Function) : GoString :=
  function.Body ++ if function.RaiseErrorCode ≠ [] then raiseStatement function.RaiseErrorCode
    else []

/-- The statement with which `StubFunction` installs the procedure. -/
def stubQuery (function : Function) : GoString :=
  functionQuery function.Name (argsWithTypes function.Args) function.ReturnType
    (bodyWithRaise function)

/-- The statement with which `MockFunction` installs the procedure: that of the
descriptor whose body is the INSERT statement followed by the given body. -/
def mockQuery (function : Function) : GoString :=
  stubQuery { function with
    Body := insertStatement function.Name function.Args ++ function.Body }

/-! ## Comparison rules -/

/-- The eight expected types the type switch has a case for. -/
def supported : Value → Bool
  | .time _ | .bool _ | .string _ | .uint64 _ | .int64 _ | .int32 _ | .int _ | .bytes _ => true
  | _ => false

/-- The recorded value has a representation that the case of the expected type
reads: the asserted dynamic type, and for a string a string or a `[]uint8`. -/
def reads : Value → Value → Bool
  | .time _, .time _ | .bool _, .bool _ => true
  | .string _, .string _ | .string _, .bytes _ => true
  | .uint64 _, .int64 _ | .int64 _, .int64 _ | .int32 _, .int32 _ | .int _, .int64 _ => true
  | .bytes _, .bytes _ => true
  | _, _ => false

/-- The comparison rule of each supported type, as the specification lists them:
direct equality for timestamps, booleans, signed 64-bit and signed 32-bit integers;
text against the recorded value decoded to text; unsigned 64-bit against the recorded
signed value reinterpreted as unsigned; the platform integer against the recorded
signed 64-bit value narrowed; byte sequences by deep equality. -/
def equalUnderRule (intBits : Nat) : Value → Value → Bool
  | .time e, .time a => e = a
  | .bool e, .bool a => e = a
  | .string e, .string a => e = a
  | .string e, .bytes a => e = bytesToString a
  | .uint64 e, .int64 a => e = toUint64 a
  | .int64 e, .int64 a => e = a
  | .int32 e, .int32 a => e = a
  | .int e, .int64 a => e = toInt intBits a
  | .bytes e, .bytes a => deepEqual e a
  | _, _ => false

/-- The value of the local variable `got` in the case of the expected type, for a
recorded value that the case reads. -/
def gotValue (intBits : Nat) : Value → Value → Value
  | .string _, .bytes a => .string (bytesToString a)
  | .uint64 _, .int64 a => .uint64 (toUint64 a)
  | .int _, .int64 a => .int (toInt intBits a)
  | _, recorded => recorded

/-- The recorded value is a string or a `[]uint8`. -/
def isText : Value → Bool
  | .string _ | .bytes _ => true
  | _ => false

/-- The `t.Errorf` reports, in argument order, of the arguments whose recorded value
differs from the expected value at the same index under the rule of its type. -/
def mismatches (intBits : Nat) (call : Row) (values : List Value) (args : List Argument) :
    List Action :=
  (args.zip values).filterMap fun p =>
    if equalUnderRule intBits p.2 (index call p.1.Name) then none
    else some (.errorf p.1.Name p.2 (gotValue intBits p.2 (index call p.1.Name)))

/-- The type assertion in the case of the expected type succeeds on the recorded
value; the string case and the default case assert nothing. -/
def asserts : Value → Value → Bool
  | .time _, .time _ | .bool _, .bool _ => true
  | .uint64 _, .int64 _ | .int64 _, .int64 _ | .int32 _, .int32 _ | .int _, .int64 _ => true
  | .bytes _, .bytes _ => true
  | .string _, _ => true
  | .nil, _ | .float64 _, _ | .other _ _, _ => true
  | _, _ => false

/-- Every report of the trace is a `t.Errorf`. -/
def onlyErrorf (tr : List Action) : Prop :=
  ∀ a ∈ tr, ∃ name expected got, a = Action.errorf name expected got

/-- The outcomes told through the reporting handle: the call returns after zero or
more `t.Errorf`, or ends in `runtime.Goexit` right after a `t.Fatalf`. -/
def Reported (r : Res Unit) : Prop :=
  (r.ending = .returned () ∧ onlyErrorf r.trace) ∨
  (r.ending = .goexit ∧ ∃ tr f, r.trace = tr ++ [Action.fatalf f] ∧ onlyErrorf tr)

/-- The operand `expectedCalls[callIndex].Values[argIndex]` of the type switch;
`none` when one of the two indexes is out of range. -/
def expectedAt (expectedCalls : List Call) (callIndex argIndex : Nat) : Option Value :=
  match expectedCalls[callIndex]? with
  | none => none
  | some expectedCall => expectedCall.Values[argIndex]?

/-! ## Sequencing lemmas -/

theorem Res.bind_returned {α β : Type} (tr : List Action) (v : α) (f : α → Res β) :
    (Res.mk tr (.returned v)).bind f = ⟨tr ++ (f v).trace, (f v).ending⟩ := rfl

theorem Res.bind_goexit {α β : Type} (tr : List Action) (f : α → Res β) :
    (Res.mk tr (.goexit : Ending α)).bind f = ⟨tr, .goexit⟩ := rfl

theorem Res.bind_panicked {α β : Type} (tr : List Action) (f : α → Res β) :
    (Res.mk tr (.panicked : Ending α)).bind f = ⟨tr, .panicked⟩ := rfl

theorem Res.bind_done (r : Res Unit) : (r.bind fun _ => ⟨[], .returned ()⟩) = r := by
  obtain ⟨tr, e⟩ := r
  cases e <;> simp [Res.bind]

theorem reportIf_true (argName : GoString) (expected got : Value) :
    reportIf true argName expected got = ⟨[.errorf argName expected got], .returned ()⟩ := rfl

theorem reportIf_false (argName : GoString) (expected got : Value) :
    reportIf false argName expected got = ⟨[], .returned ()⟩ := rfl

/-- One recorded call, one expected call with one value, one argument: the
validation is the type switch on that value. -/
theorem validateCalls_single (intBits : Nat) (call : Row) (expected : Value) (arg : Argument) :
    validateCalls intBits [call] [⟨[expected]⟩] [arg] = validateValue intBits call arg expected := by
  simp [validateCalls, validateCallsFrom, validateArgs, Res.bind_done]

/-- The type switch on a recorded value that the case reads: one comparison, and
a `t.Errorf` exactly when the rule finds a difference. -/
theorem validateValue_of_reads (intBits : Nat) (call : Row) (arg : Argument) (expected : Value)
    (h : reads expected (index call arg.Name) = true) :
    validateValue intBits call arg expected
      = reportIf (!equalUnderRule intBits expected (index call arg.Name)) arg.Name expected
          (gotValue intBits expected (index call arg.Name)) := by
  unfold validateValue getString
  generalize index call arg.Name = recorded at h ⊢
  cases expected <;> cases recorded <;> simp [reads] at h <;>
    simp [equalUnderRule, gotValue, Res.bind, reportIf, bne_iff_ne]

theorem Res.bind_assoc {α β γ : Type} (r : Res α) (f : α → Res β) (g : β → Res γ) :
    (r.bind f).bind g = r.bind fun x => (f x).bind g := by
  obtain ⟨tr, e⟩ := r
  cases e with
  | returned v =>
    rcases hf : f v with ⟨tr2, e2⟩
    cases e2 <;> simp [Res.bind, hf]
  | goexit => rfl
  | panicked => rfl

theorem Res.done_bind {β : Type} (f : Unit → Res β) :
    (Res.mk [] (.returned ())).bind f = f () := by
  simp [Res.bind]

/-- The inner loop over a concatenation: the second part starts where the first
one returned. -/
theorem validateArgs_append (intBits : Nat) (call : Row) (callIndex : Nat)
    (expectedCalls : List Call) (a b : List Argument) (k : Nat) :
    validateArgs intBits call callIndex expectedCalls (a ++ b) k
      = (validateArgs intBits call callIndex expectedCalls a k).bind fun _ =>
          validateArgs intBits call callIndex expectedCalls b (k + a.length) := by
  induction a generalizing k with
  | nil => simp [validateArgs, Res.done_bind]
  | cons arg rest ih =>
    have hk : k + 1 + rest.length = k + (rest.length + 1) := by omega
    rw [List.cons_append]
    rcases h1 : expectedCalls[callIndex]? with _ | expectedCall
    · simp only [validateArgs, h1]
      rfl
    · rcases h2 : expectedCall.Values[k]? with _ | expected
      · simp only [validateArgs, h1, h2]
        rfl
      · simp only [validateArgs, h1, h2, List.length_cons, Res.bind_assoc, ih, hk]

/-- The outer loop over a concatenation. -/
theorem validateCallsFrom_append (intBits : Nat) (expectedCalls : List Call)
    (args : List Argument) (a b : List Row) (k : Nat) :
    validateCallsFrom intBits expectedCalls args (a ++ b) k
      = (validateCallsFrom intBits expectedCalls args a k).bind fun _ =>
          validateCallsFrom intBits expectedCalls args b (k + a.length) := by
  induction a generalizing k with
  | nil => simp [validateCallsFrom, Res.done_bind]
  | cons call rest ih =>
    have hk : k + 1 + rest.length = k + (rest.length + 1) := by omega
    rw [List.cons_append]
    simp only [validateCallsFrom, List.length_cons, Res.bind_assoc, ih, hk]

/-- The inner loop reads only the expected call at its call index. -/
theorem validateArgs_expectedCall (intBits : Nat) (call : Row) (callIndex : Nat)
    (expectedCalls : List Call) (expectedCall : Call)
    (h : expectedCalls[callIndex]? = some expectedCall) (args : List Argument) (k : Nat) :
    validateArgs intBits call callIndex expectedCalls args k
      = validateArgs intBits call 0 [expectedCall] args k := by
  induction args generalizing k with
  | nil => simp [validateArgs]
  | cons arg rest ih => simp [validateArgs, h, ih]

theorem validateCalls_one_call (intBits : Nat) (call : Row) (expectedCall : Call)
    (args : List Argument) :
    validateCalls intBits [call] [expectedCall] args
      = validateArgs intBits call 0 [expectedCall] args 0 := by
  simp [validateCalls, validateCallsFrom, Res.bind_done]

/-- Validation up to the position of call `pre.length` and argument `apre.length`:
the earlier calls, the earlier arguments of the call, the type switch at the
position, and a continuation for what follows. -/
theorem validateCalls_at (intBits : Nat) (pre post : List Row) (call : Row)
    (expectedCalls : List Call) (apre apost : List Argument) (arg : Argument)
    (expectedCall : Call) (expected : Value)
    (hcall : expectedCalls[pre.length]? = some expectedCall)
    (hval : expectedCall.Values[apre.length]? = some expected) :
    ∃ k : Unit → Res Unit,
      validateCalls intBits (pre ++ call :: post) expectedCalls (apre ++ arg :: apost)
        = (validateCalls intBits pre expectedCalls (apre ++ arg :: apost)).bind fun _ =>
            (validateCalls intBits [call] [expectedCall] apre).bind fun _ =>
              (validateValue intBits call arg expected).bind k := by
  refine ⟨fun _ => (validateArgs intBits call pre.length expectedCalls apost
      (apre.length + 1)).bind fun _ =>
        validateCallsFrom intBits expectedCalls (apre ++ arg :: apost) post (pre.length + 1), ?_⟩
  simp only [validateCalls, validateCallsFrom_append, validateCallsFrom, Nat.zero_add,
    validateArgs_append, validateArgs, hcall, hval, Res.bind_assoc, Res.bind_done]
  rw [validateArgs_expectedCall intBits call pre.length expectedCalls expectedCall hcall apre 0]

/-- When the earlier calls and the earlier arguments return and the type switch at
the position ends in `runtime.Goexit`, validation ends there. -/
theorem validateCalls_goexit_at (intBits : Nat) (pre post : List Row) (call : Row)
    (expectedCalls : List Call) (apre apost : List Argument) (arg : Argument)
    (expectedCall : Call) (expected : Value) (tr1 tr2 tr3 : List Action)
    (hcall : expectedCalls[pre.length]? = some expectedCall)
    (hval : expectedCall.Values[apre.length]? = some expected)
    (hpre : validateCalls intBits pre expectedCalls (apre ++ arg :: apost) = ⟨tr1, .returned ()⟩)
    (hapre : validateCalls intBits [call] [expectedCall] apre = ⟨tr2, .returned ()⟩)
    (hv : validateValue intBits call arg expected = ⟨tr3, .goexit⟩) :
    validateCalls intBits (pre ++ call :: post) expectedCalls (apre ++ arg :: apost)
      = ⟨tr1 ++ (tr2 ++ tr3), .goexit⟩ := by
  obtain ⟨k, hk⟩ := validateCalls_at intBits pre post call expectedCalls apre apost arg
    expectedCall expected hcall hval
  rw [hk, hpre, hapre, hv]
  rfl

/-- The default case of the type switch. -/
theorem validateValue_unsupported (intBits : Nat) (call : Row) (arg : Argument)
    (expected : Value) (h : supported expected = false) :
    validateValue intBits call arg expected
      = ⟨[.fatalf (.unknownType arg.Name expected)], .goexit⟩ := by
  cases expected <;> simp [supported] at h <;> rfl

/-! ## Claims -/

/-- C1: for one recorded call and one argument, when the recorded value has the
representation the expected type reads, `validateCalls` reports nothing and
returns when the expected value equals the recorded one under the type's rule, and
otherwise reports exactly one `t.Errorf`, no `t.Fatalf`, and returns. -/
theorem validateCalls_one_argument (intBits : Nat) (call : Row) (arg : Argument)
    (expected : Value) (h : reads expected (index call arg.Name) = true) :
    (equalUnderRule intBits expected (index call arg.Name) = true →
      validateCalls intBits [call] [⟨[expected]⟩] [arg] = ⟨[], .returned ()⟩) ∧
    (equalUnderRule intBits expected (index call arg.Name) = false →
      ∃ got, validateCalls intBits [call] [⟨[expected]⟩] [arg]
        = ⟨[.errorf arg.Name expected got], .returned ()⟩) := by
  rw [validateCalls_single, validateValue_of_reads intBits call arg expected h]
  constructor
  · intro heq
    simp [heq, reportIf]
  · intro hne
    exact ⟨gotValue intBits expected (index call arg.Name), by simp [hne, reportIf]⟩

/-- Witness of C1: expected int64 42 against recorded 42 passes, against recorded 7
gives one `t.Errorf`. -/
theorem validateCalls_one_argument_witness :
    validateCalls 64 [[(lit "uid", .int64 42)]] [⟨[.int64 42]⟩] [⟨lit "uid", lit "bigint"⟩]
        = ⟨[], .returned ()⟩ ∧
    ∃ got, validateCalls 64 [[(lit "uid", .int64 7)]] [⟨[.int64 42]⟩] [⟨lit "uid", lit "bigint"⟩]
        = ⟨[.errorf (lit "uid") (.int64 42) got], .returned ()⟩ :=
  ⟨(validateCalls_one_argument 64 [(lit "uid", .int64 42)] ⟨lit "uid", lit "bigint"⟩ (.int64 42)
      (by decide)).1 (by decide),
   (validateCalls_one_argument 64 [(lit "uid", .int64 7)] ⟨lit "uid", lit "bigint"⟩ (.int64 42)
      (by decide)).2 (by decide)⟩

theorem andThen_returned {σ α β : Type} (s : σ) (tr : List Action) (v : α)
    (f : α → σ → σ × Res β) :
    andThen (s, ⟨tr, .returned v⟩) f = ((f v s).1, ⟨tr ++ (f v s).2.trace, (f v s).2.ending⟩) :=
  rfl

theorem andThen_goexit {σ α β : Type} (s : σ) (tr : List Action) (f : α → σ → σ × Res β) :
    andThen (s, ⟨tr, (.goexit : Ending α)⟩) f = (s, ⟨tr, .goexit⟩) := rfl

theorem andThen_panicked {σ α β : Type} (s : σ) (tr : List Action) (f : α → σ → σ × Res β) :
    andThen (s, ⟨tr, (.panicked : Ending α)⟩) f = (s, ⟨tr, .panicked⟩) := rfl

/-- Rows that all scan are appended to `calls` in order. -/
theorem scanRows_ok (rows calls : List Row) :
    scanRows (rows.map .ok) calls = ⟨[], .returned (calls ++ rows)⟩ := by
  induction rows generalizing calls with
  | nil => simp [scanRows]
  | cons r rest ih => simp [scanRows, ih]

/-- The result of `getCalls` when the query succeeds and every row scans. -/
theorem getCalls_of_rows {σ : Type} (db : DB σ) (functionName : GoString) (s s1 : σ)
    (rows : List Row)
    (hq : db.Queryx s (selectQuery functionName) = (s1, .ok (rows.map .ok))) :
    getCalls db functionName s
      = (s1, if rows.length ≠ 1 then
               ⟨[.queryx (selectQuery functionName), .fatalf (.callCount rows.length)], .goexit⟩
             else ⟨[.queryx (selectQuery functionName)], .returned rows⟩) := by
  simp only [getCalls, hq, scanRows_ok, List.nil_append, Res.bind_returned]
  by_cases h : rows.length = 1 <;> simp [h]

/-- C2: when the query of `getCalls` gives a list of rows whose length is not 1,
`getCalls` ends in `t.Fatalf` with the count, and `MockFunction` ends there whatever
the expected calls are, with no report of `validateCalls`; when it gives exactly one
row, `getCalls` returns that row and reports nothing. -/
theorem getCalls_row_count {σ : Type} (intBits : Nat) (function : Function) (db : DB σ)
    (testFunc : σ → σ × Ending Unit) (s0 s1 s2 s3 s4 : σ) (tr1 tr2 : List Action)
    (body : GoString) (rows : List Row)
    (h1 : createCallTrackingTable db function.Name function.Args s0 = (s1, ⟨tr1, .returned body⟩))
    (h2 : createSQLFunctions db { function with Body := body ++ function.Body } s1
      = (s2, ⟨tr2, .returned ()⟩))
    (h3 : testFunc s2 = (s3, .returned ()))
    (h4 : db.Queryx s3 (selectQuery function.Name) = (s4, .ok (rows.map .ok))) :
    (rows.length ≠ 1 →
      getCalls db function.Name s3
        = (s4, ⟨[.queryx (selectQuery function.Name), .fatalf (.callCount rows.length)], .goexit⟩)
      ∧ ∀ expectedCalls : List Call,
        MockFunction intBits function expectedCalls db testFunc s0
          = (s4, ⟨tr1 ++ (tr2 ++ [.testFunc, .queryx (selectQuery function.Name),
              .fatalf (.callCount rows.length)]), .goexit⟩)) ∧
    (∀ row, rows = [row] →
      getCalls db function.Name s3
        = (s4, ⟨[.queryx (selectQuery function.Name)], .returned [row]⟩)) := by
  have hg := getCalls_of_rows db function.Name s3 s4 rows h4
  refine ⟨fun hlen => ⟨by simpa [hlen] using hg, fun expectedCalls => ?_⟩, fun row hrow => ?_⟩
  · simp [MockFunction, h1, h2, h3, hg, hlen, andThen_returned, andThen_goexit, runTestFunc]
  · subst hrow
    simpa using hg

/-- Witness of C2: the test body calls `add_user` twice; `MockFunction` ends in the
fatal count report after the query. -/
theorem getCalls_row_count_witness :
    MockFunction 64 addUser [⟨[.int 42, .bool true]⟩] rowsDB (callTimes 2) []
      = ([addUserRow, addUserRow],
          ⟨[.exec (trackingTableQuery addUser.Name addUser.Args)] ++
            ([.exec (functionQuery addUser.Name (argsWithTypes addUser.Args) addUser.ReturnType
                (insertStatement addUser.Name addUser.Args ++ addUser.Body))] ++
             [.testFunc, .queryx (selectQuery addUser.Name), .fatalf (.callCount 2)]),
           .goexit⟩) :=
  ((getCalls_row_count 64 addUser rowsDB (callTimes 2) [] [] [] [addUserRow, addUserRow]
      [addUserRow, addUserRow] _ _ _ [addUserRow, addUserRow] rfl rfl rfl rfl).1
    (by decide)).2 [⟨[.int 42, .bool true]⟩]

/-- C3, as stated, fails: the expected value of the second argument is a float64,
but the first case asserts a bool on a recorded int64 and validation panics, with no
`t.Fatalf` at all. -/
theorem validateCalls_unknown_type_counterexample :
    supported (.float64 0) = false ∧
    validateCalls 64 [[(lit "a", .int64 1), (lit "b", .int64 2)]]
        [⟨[.bool true, .float64 0]⟩] [⟨lit "a", lit "bigint"⟩, ⟨lit "b", lit "bigint"⟩]
      = ⟨[], .panicked⟩ := by
  decide

/-- C3, amended: when the expected value at call index `pre.length` and argument
index `apre.length` has an unsupported type, and the validation of the earlier calls
and of the earlier arguments of that call returns, `validateCalls` ends in
`t.Fatalf` at that position; the trace holds the reports of the earlier positions
and that fatal report, whatever the later arguments `apost` of the call and the later
calls `post` are. -/
theorem validateCalls_unknown_type (intBits : Nat) (pre post : List Row) (call : Row)
    (expectedCalls : List Call) (apre apost : List Argument) (arg : Argument)
    (expectedCall : Call) (expected : Value) (tr1 tr2 : List Action)
    (hcall : expectedCalls[pre.length]? = some expectedCall)
    (hval : expectedCall.Values[apre.length]? = some expected)
    (hunsupported : supported expected = false)
    (hpre : validateCalls intBits pre expectedCalls (apre ++ arg :: apost) = ⟨tr1, .returned ()⟩)
    (hapre : validateCalls intBits [call] [expectedCall] apre = ⟨tr2, .returned ()⟩) :
    validateCalls intBits (pre ++ call :: post) expectedCalls (apre ++ arg :: apost)
      = ⟨tr1 ++ (tr2 ++ [.fatalf (.unknownType arg.Name expected)]), .goexit⟩ :=
  validateCalls_goexit_at intBits pre post call expectedCalls apre apost arg expectedCall
    expected tr1 tr2 _ hcall hval hpre hapre
    (validateValue_unsupported intBits call arg expected hunsupported)

/-- Witness of the amended C3: the first argument mismatches, the second expected
value is a float64; the third argument, whose recorded value would make its case
panic, and the second call are not examined. -/
theorem validateCalls_unknown_type_witness :
    validateCalls 64
        ([] ++ [(lit "a", .int64 1), (lit "b", .int64 2), (lit "c", .bool true)] ::
          [[(lit "a", .int64 9)]])
        [⟨[.int64 5, .float64 0, .int64 3]⟩]
        ([⟨lit "a", lit "bigint"⟩] ++ ⟨lit "b", lit "bigint"⟩ :: [⟨lit "c", lit "bigint"⟩])
      = ⟨[] ++ ([.errorf (lit "a") (.int64 5) (.int64 1)] ++
          [.fatalf (.unknownType (lit "b") (.float64 0))]), .goexit⟩ :=
  validateCalls_unknown_type 64 [] [[(lit "a", .int64 9)]]
    [(lit "a", .int64 1), (lit "b", .int64 2), (lit "c", .bool true)]
    [⟨[.int64 5, .float64 0, .int64 3]⟩] [⟨lit "a", lit "bigint"⟩] [⟨lit "c", lit "bigint"⟩]
    ⟨lit "b", lit "bigint"⟩ ⟨[.int64 5, .float64 0, .int64 3]⟩ (.float64 0) []
    [.errorf (lit "a") (.int64 5) (.int64 1)] (by decide) (by decide) (by decide) (by decide)
    (by decide)

theorem index_singleton (name : GoString) (v : Value) : index [(name, v)] name = v := by
  simp [index, List.lookup]

theorem eq_toUint64_iff (u : Nat) (a : Int) : u = toUint64 a ↔ (u : Int) = a % 2 ^ 64 := by
  unfold toUint64
  omega

/-- The uint64 case on a recorded int64. -/
theorem validateCalls_uint64_iff (intBits : Nat) (call : Row) (arg : Argument) (u : Nat) (a : Int)
    (hrec : index call arg.Name = .int64 a) :
    validateCalls intBits [call] [⟨[.uint64 u]⟩] [arg] = ⟨[], .returned ()⟩
      ↔ (u : Int) = a % 2 ^ 64 := by
  have hr : reads (.uint64 u) (index call arg.Name) = true := by rw [hrec]; rfl
  rw [validateCalls_single, validateValue_of_reads intBits call arg _ hr, hrec,
    ← eq_toUint64_iff]
  by_cases h : u = toUint64 a <;> simp [equalUnderRule, h, reportIf]

/-- C4: an expected uint64 `u` against a recorded int64 `a` gives no mismatch exactly
when `u = a mod 2^64`; expected 18446744073709551615 matches recorded -1; every
`u < 2^64` is matched by exactly one value of the int64 range. -/
theorem validateCalls_uint64 (intBits : Nat) (arg : Argument) :
    (∀ (call : Row) (u : Nat) (a : Int), index call arg.Name = .int64 a →
      (validateCalls intBits [call] [⟨[.uint64 u]⟩] [arg] = ⟨[], .returned ()⟩
        ↔ (u : Int) = a % 2 ^ 64)) ∧
    validateCalls intBits [[(arg.Name, .int64 (-1))]] [⟨[.uint64 18446744073709551615]⟩] [arg]
      = ⟨[], .returned ()⟩ ∧
    (∀ u : Nat, u < 2 ^ 64 →
      ∃! a : Int, (-(2 ^ 63) ≤ a ∧ a < 2 ^ 63) ∧
        validateCalls intBits [[(arg.Name, .int64 a)]] [⟨[.uint64 u]⟩] [arg]
          = ⟨[], .returned ()⟩) := by
  refine ⟨fun call u a h => validateCalls_uint64_iff intBits call arg u a h, ?_, ?_⟩
  · rw [validateCalls_uint64_iff intBits _ arg _ (-1) (index_singleton _ _)]
    norm_num
  · intro u hu
    have key : ∀ a : Int,
        (validateCalls intBits [[(arg.Name, .int64 a)]] [⟨[.uint64 u]⟩] [arg]
          = ⟨[], .returned ()⟩) ↔ (u : Int) = a % 2 ^ 64 :=
      fun a => validateCalls_uint64_iff intBits _ arg u a (index_singleton _ _)
    have hu2 : (u : Int) < 2 ^ 64 := by exact_mod_cast hu
    have hu0 : (0 : Int) ≤ u := Int.ofNat_nonneg u
    by_cases hlt : (u : Int) < 2 ^ 63
    · refine ⟨u, ⟨⟨by omega, hlt⟩, (key _).2 ?_⟩, ?_⟩
      · omega
      · rintro b ⟨⟨hb1, hb2⟩, hb⟩
        have := (key b).1 hb
        omega
    · refine ⟨u - 2 ^ 64, ⟨⟨by omega, by omega⟩, (key _).2 ?_⟩, ?_⟩
      · omega
      · rintro b ⟨⟨hb1, hb2⟩, hb⟩
        have := (key b).1 hb
        omega

/-- Witness of C4 at the name `uid`: recorded -1 is the int64 value that matches
expected 18446744073709551615. -/
theorem validateCalls_uint64_witness :
    (validateCalls 64 [[(lit "uid", .int64 (-1))]] [⟨[.uint64 18446744073709551615]⟩]
        [⟨lit "uid", lit "bigint"⟩] = ⟨[], .returned ()⟩
      ↔ ((18446744073709551615 : Nat) : Int) = (-1) % 2 ^ 64) ∧
    ∃! a : Int, (-(2 ^ 63) ≤ a ∧ a < 2 ^ 63) ∧
      validateCalls 64 [[(lit "uid", .int64 a)]] [⟨[.uint64 18446744073709551615]⟩]
          [⟨lit "uid", lit "bigint"⟩] = ⟨[], .returned ()⟩ :=
  ⟨(validateCalls_uint64 64 ⟨lit "uid", lit "bigint"⟩).1 [(lit "uid", .int64 (-1))]
      18446744073709551615 (-1) (by decide),
   (validateCalls_uint64 64 ⟨lit "uid", lit "bigint"⟩).2.2 18446744073709551615 (by norm_num)⟩

/-- The string case on a recorded string or `[]uint8` whose text is `text`. -/
theorem validateCalls_string_text (intBits : Nat) (call : Row) (arg : Argument)
    (s text : GoString)
    (hrec : index call arg.Name = .string text
      ∨ ∃ b, index call arg.Name = .bytes b ∧ bytesToString b = text) :
    validateCalls intBits [call] [⟨[.string s]⟩] [arg]
      = reportIf (s != text) arg.Name (.string s) (.string text) := by
  rw [validateCalls_single]
  rcases hrec with h | ⟨b, h, hb⟩
  · simp [validateValue, h, getString, Res.bind]
  · simp [validateValue, h, hb, getString, Res.bind]

/-- C5: for an expected string `s`, the result of `validateCalls` is the same
whether the recorded value is the string `text` or a `[]uint8` whose bytes are those
of `text`, and there is no mismatch exactly when `s = text`; expected "abc" passes
against recorded "abc" and against recorded bytes [0x61, 0x62, 0x63]. -/
theorem validateCalls_string_or_bytes (intBits : Nat) (arg : Argument) :
    (∀ (call call2 : Row) (s text : GoString) (b : Option (List UInt8)),
      index call arg.Name = .string text → index call2 arg.Name = .bytes b →
      bytesToString b = text →
        validateCalls intBits [call] [⟨[.string s]⟩] [arg]
          = validateCalls intBits [call2] [⟨[.string s]⟩] [arg] ∧
        (validateCalls intBits [call] [⟨[.string s]⟩] [arg] = ⟨[], .returned ()⟩ ↔ s = text) ∧
        (validateCalls intBits [call2] [⟨[.string s]⟩] [arg] = ⟨[], .returned ()⟩ ↔ s = text)) ∧
    validateCalls intBits [[(arg.Name, .string (lit "abc"))]] [⟨[.string (lit "abc")]⟩] [arg]
      = ⟨[], .returned ()⟩ ∧
    validateCalls intBits [[(arg.Name, .bytes (some [0x61, 0x62, 0x63]))]]
        [⟨[.string (lit "abc")]⟩] [arg]
      = ⟨[], .returned ()⟩ := by
  refine ⟨fun call call2 s text b h1 h2 hb => ?_, ?_, ?_⟩
  · rw [validateCalls_string_text intBits call arg s text (Or.inl h1),
      validateCalls_string_text intBits call2 arg s text (Or.inr ⟨b, h2, hb⟩)]
    refine ⟨rfl, ?_⟩
    by_cases h : s = text <;> simp [h, reportIf]
  · rw [validateCalls_string_text intBits _ arg _ (lit "abc") (Or.inl (index_singleton _ _))]
    simp [reportIf]
  · rw [validateCalls_string_text intBits _ arg _ (lit "abc")
      (Or.inr ⟨_, index_singleton _ _, by decide⟩)]
    simp [reportIf]

/-- Witness of C5 at the name `kind`: expected "abc" against recorded "abc" and
against recorded bytes [0x61, 0x62, 0x63]. -/
theorem validateCalls_string_or_bytes_witness :
    validateCalls 64 [[(lit "kind", .string (lit "abc"))]] [⟨[.string (lit "abc")]⟩]
        [⟨lit "kind", lit "text"⟩]
      = validateCalls 64 [[(lit "kind", .bytes (some [0x61, 0x62, 0x63]))]]
          [⟨[.string (lit "abc")]⟩] [⟨lit "kind", lit "text"⟩] :=
  ((validateCalls_string_or_bytes 64 ⟨lit "kind", lit "text"⟩).1
    [(lit "kind", .string (lit "abc"))] [(lit "kind", .bytes (some [0x61, 0x62, 0x63]))]
    (lit "abc") (lit "abc") (some [0x61, 0x62, 0x63]) (by decide) (by decide) (by decide)).1

/-- C6, as stated, fails: a nil `[]uint8` and an empty non-nil `[]uint8` have the
same length and the same byte at every position, and `validateCalls` reports a
mismatch, because `reflect.DeepEqual` tells a nil slice from a non-nil one. -/
theorem validateCalls_bytes_counterexample :
    (bytesToString none).length = (bytesToString (some [])).length ∧
    bytesToString none = bytesToString (some []) ∧
    validateCalls 64 [[(lit "data", .bytes (some []))]] [⟨[.bytes none]⟩]
        [⟨lit "data", lit "bytea"⟩]
      = ⟨[.errorf (lit "data") (.bytes none) (.bytes (some []))], .returned ()⟩ := by
  decide

/-- The element-wise comparison of `reflect.DeepEqual`. -/
theorem deepEqual_eq_true_iff (e a : Option (List UInt8)) :
    deepEqual e a = true ↔
      (e.isNone ↔ a.isNone) ∧ (bytesToString e).length = (bytesToString a).length ∧
        ∀ (i : Nat) (h1 : i < (bytesToString e).length) (h2 : i < (bytesToString a).length),
          (bytesToString e)[i] = (bytesToString a)[i] := by
  cases e with
  | none => cases a <;> simp [deepEqual, bytesToString]
  | some x =>
    cases a with
    | none => simp [deepEqual, bytesToString]
    | some y =>
      simp only [deepEqual, bytesToString, Bool.and_eq_true, beq_iff_eq, Option.isNone_some,
        true_and]
      constructor
      · rintro ⟨hl, rfl⟩
        exact ⟨rfl, fun i _ _ => rfl⟩
      · rintro ⟨hl, hi⟩
        exact ⟨hl, List.ext_getElem hl hi⟩

/-- C6, amended: an expected `[]uint8` `e` against a recorded `[]uint8` `a` gives no
mismatch exactly when both are nil or both are non-nil, and they have the same length
and the same byte at every position. Two empty non-nil sequences match, [1,2,3]
matches [1,2,3] and does not match [1,2,4]. -/
theorem validateCalls_bytes (intBits : Nat) (arg : Argument) :
    (∀ (call : Row) (e a : Option (List UInt8)), index call arg.Name = .bytes a →
      (validateCalls intBits [call] [⟨[.bytes e]⟩] [arg] = ⟨[], .returned ()⟩ ↔
        (e.isNone ↔ a.isNone) ∧ (bytesToString e).length = (bytesToString a).length ∧
          ∀ (i : Nat) (h1 : i < (bytesToString e).length) (h2 : i < (bytesToString a).length),
            (bytesToString e)[i] = (bytesToString a)[i])) ∧
    validateCalls intBits [[(arg.Name, .bytes (some []))]] [⟨[.bytes (some [])]⟩] [arg]
      = ⟨[], .returned ()⟩ ∧
    validateCalls intBits [[(arg.Name, .bytes (some [1, 2, 3]))]] [⟨[.bytes (some [1, 2, 3])]⟩]
        [arg]
      = ⟨[], .returned ()⟩ ∧
    validateCalls intBits [[(arg.Name, .bytes (some [1, 2, 4]))]] [⟨[.bytes (some [1, 2, 3])]⟩]
        [arg]
      = ⟨[.errorf arg.Name (.bytes (some [1, 2, 3])) (.bytes (some [1, 2, 4]))],
          .returned ()⟩ := by
  have key : ∀ (call : Row) (e a : Option (List UInt8)), index call arg.Name = .bytes a →
      validateCalls intBits [call] [⟨[.bytes e]⟩] [arg]
        = reportIf (!deepEqual e a) arg.Name (.bytes e) (.bytes a) := by
    intro call e a h
    rw [validateCalls_single]
    simp [validateValue, h]
  refine ⟨fun call e a h => ?_, ?_, ?_, ?_⟩
  · rw [key call e a h, ← deepEqual_eq_true_iff]
    cases hd : deepEqual e a <;> simp [reportIf]
  · rw [key _ _ _ (index_singleton _ _)]
    rfl
  · rw [key _ _ _ (index_singleton _ _)]
    rfl
  · rw [key _ _ _ (index_singleton _ _)]
    rfl

/-- Witness of the amended C6 at the name `data`: two nil slices match. -/
theorem validateCalls_bytes_witness :
    validateCalls 64 [[(lit "data", .bytes none)]] [⟨[.bytes none]⟩] [⟨lit "data", lit "bytea"⟩]
      = ⟨[], .returned ()⟩ :=
  ((validateCalls_bytes 64 ⟨lit "data", lit "bytea"⟩).1 [(lit "data", .bytes none)] none none
    (by decide)).2 (by decide)

/-- The string case on a recorded value that is neither a string nor a `[]uint8`. -/
theorem validateValue_string_not_text (intBits : Nat) (call : Row) (arg : Argument)
    (e : GoString) (h : isText (index call arg.Name) = false) :
    validateValue intBits call arg (.string e)
      = ⟨[.fatalf (.notString (index call arg.Name) arg.Name)], .goexit⟩ := by
  unfold validateValue getString
  generalize index call arg.Name = recorded at h ⊢
  cases recorded <;> simp [isText] at h <;> rfl

/-- C7: `getString` ends in `t.Fatalf` on a value that is neither a string nor a
`[]uint8`, and returns the text of a string or `[]uint8` without a report; when
`validateCalls` reaches an expected string whose recorded value is neither, it ends
there with that fatal report and no `t.Errorf` for the argument. -/
theorem getString_fatal (intBits : Nat) :
    (∀ (src : Value) (argName : GoString), isText src = false →
      getString src argName = ⟨[.fatalf (.notString src argName)], .goexit⟩) ∧
    (∀ (v argName : GoString), getString (.string v) argName = ⟨[], .returned v⟩) ∧
    (∀ (b : Option (List UInt8)) (argName : GoString),
      getString (.bytes b) argName = ⟨[], .returned (bytesToString b)⟩) ∧
    (∀ (pre post : List Row) (call : Row) (expectedCalls : List Call)
      (apre apost : List Argument) (arg : Argument) (expectedCall : Call) (e : GoString)
      (tr1 tr2 : List Action),
      expectedCalls[pre.length]? = some expectedCall →
      expectedCall.Values[apre.length]? = some (.string e) →
      isText (index call arg.Name) = false →
      validateCalls intBits pre expectedCalls (apre ++ arg :: apost) = ⟨tr1, .returned ()⟩ →
      validateCalls intBits [call] [expectedCall] apre = ⟨tr2, .returned ()⟩ →
      validateCalls intBits (pre ++ call :: post) expectedCalls (apre ++ arg :: apost)
        = ⟨tr1 ++ (tr2 ++ [.fatalf (.notString (index call arg.Name) arg.Name)]), .goexit⟩) := by
  refine ⟨fun src argName h => ?_, fun _ _ => rfl, fun _ _ => rfl, ?_⟩
  · cases src <;> simp [isText] at h <;> rfl
  · intro pre post call expectedCalls apre apost arg expectedCall e tr1 tr2 hcall hval htext
      hpre hapre
    exact validateCalls_goexit_at intBits pre post call expectedCalls apre apost arg
      expectedCall (.string e) tr1 tr2 _ hcall hval hpre hapre
      (validateValue_string_not_text intBits call arg e htext)

/-- Witness of C7: expected "abc" for `kind`, recorded an int64, a bool, and a row
without the column. -/
theorem getString_fatal_witness :
    getString (.int64 5) (lit "kind") = ⟨[.fatalf (.notString (.int64 5) (lit "kind"))], .goexit⟩ ∧
    getString (.bool true) (lit "kind")
      = ⟨[.fatalf (.notString (.bool true) (lit "kind"))], .goexit⟩ ∧
    validateCalls 64 ([] ++ [(lit "uid", .int64 1)] :: []) [⟨[.string (lit "abc")]⟩]
        ([] ++ ⟨lit "kind", lit "text"⟩ :: [])
      = ⟨[] ++ ([] ++ [.fatalf (.notString .nil (lit "kind"))]), .goexit⟩ :=
  ⟨(getString_fatal 64).1 (.int64 5) (lit "kind") (by decide),
   (getString_fatal 64).1 (.bool true) (lit "kind") (by decide),
   (getString_fatal 64).2.2.2 [] [] [(lit "uid", .int64 1)] [⟨[.string (lit "abc")]⟩] [] []
     ⟨lit "kind", lit "text"⟩ ⟨[.string (lit "abc")]⟩ (lit "abc") [] [] (by decide) (by decide)
     (by decide) (by decide) (by decide)⟩

theorem reads_supported (expected recorded : Value) (h : reads expected recorded = true) :
    supported expected = true := by
  cases expected <;> cases recorded <;> simp [reads] at h <;> rfl

/-- The inner loop when every argument from index `k` on has an expected value and
a recorded value that its case reads. -/
theorem validateArgs_of_reads (intBits : Nat) (call : Row) (expectedCall : Call)
    (args : List Argument) (k : Nat)
    (h : ∀ (i : Nat) (hi : i < args.length), ∃ e, expectedCall.Values[k + i]? = some e ∧
      reads e (index call args[i].Name) = true) :
    validateArgs intBits call 0 [expectedCall] args k
      = ⟨mismatches intBits call (expectedCall.Values.drop k) args, .returned ()⟩ := by
  induction args generalizing k with
  | nil => simp [validateArgs, mismatches]
  | cons arg rest ih =>
    obtain ⟨e, he, hr⟩ := h 0 (by simp)
    simp only [Nat.add_zero, List.getElem_cons_zero] at he hr
    have hrest : ∀ (i : Nat) (hi : i < rest.length),
        ∃ e, expectedCall.Values[k + 1 + i]? = some e ∧
          reads e (index call rest[i].Name) = true := by
      intro i hi
      obtain ⟨e2, he2, hr2⟩ := h (i + 1) (by simp; omega)
      refine ⟨e2, ?_, by simpa using hr2⟩
      rw [← he2]
      congr 1
      omega
    have hdrop : expectedCall.Values.drop k = e :: expectedCall.Values.drop (k + 1) := by
      obtain ⟨hlt, hget⟩ := List.getElem?_eq_some_iff.1 he
      rw [← hget]
      exact List.drop_eq_getElem_cons hlt
    simp only [validateArgs, List.getElem?_cons_zero, he, ih (k + 1) hrest,
      validateValue_of_reads intBits call arg e hr, hdrop, mismatches, List.zip_cons_cons,
      List.filterMap_cons]
    cases heq : equalUnderRule intBits e (index call arg.Name) <;> simp [reportIf, Res.bind]

theorem mismatches_length (intBits : Nat) (call : Row) (values : List Value)
    (args : List Argument) :
    (mismatches intBits call values args).length
      = (args.zip values).countP fun p => !equalUnderRule intBits p.2 (index call p.1.Name) := by
  unfold mismatches
  induction args.zip values with
  | nil => rfl
  | cons p rest ih =>
    cases heq : equalUnderRule intBits p.2 (index call p.1.Name) <;>
      simp [List.filterMap_cons, List.countP_cons, heq, ih]

/-- C8: for one recorded call and one expected call in which every argument has an
expected value of a supported type and a recorded value of the representation its
case reads, `validateCalls` returns, reports no `t.Fatalf`, and its reports are the
`t.Errorf` of exactly the arguments whose recorded value differs from the expected
one, in argument order; their number is the number of such arguments. -/
theorem validateCalls_reports_every_mismatch (intBits : Nat) (call : Row)
    (args : List Argument) (expectedCall : Call)
    (h : ∀ (i : Nat) (hi : i < args.length), ∃ e, expectedCall.Values[i]? = some e ∧
      supported e = true ∧ reads e (index call args[i].Name) = true) :
    validateCalls intBits [call] [expectedCall] args
      = ⟨mismatches intBits call expectedCall.Values args, .returned ()⟩ ∧
    (validateCalls intBits [call] [expectedCall] args).trace.length
      = ((args.zip expectedCall.Values).countP fun p =>
          !equalUnderRule intBits p.2 (index call p.1.Name)) ∧
    ∀ a ∈ (validateCalls intBits [call] [expectedCall] args).trace,
      ∃ name e got, a = .errorf name e got := by
  have hv : validateCalls intBits [call] [expectedCall] args
      = ⟨mismatches intBits call expectedCall.Values args, .returned ()⟩ := by
    rw [validateCalls_one_call, validateArgs_of_reads intBits call expectedCall args 0]
    · simp
    · intro i hi
      obtain ⟨e, he, _, hr⟩ := h i hi
      exact ⟨e, by simpa using he, hr⟩
  refine ⟨hv, ?_, ?_⟩
  · rw [hv]
    exact mismatches_length intBits call expectedCall.Values args
  · rw [hv]
    intro a ha
    simp only [mismatches, List.mem_filterMap] at ha
    obtain ⟨p, _, hp⟩ := ha
    split at hp
    · simp at hp
    · exact ⟨_, _, _, (Option.some.inj hp).symm⟩

/-- Witness of C8: `add_user(uid, active)` recorded with `(42, true)` against the
expected values `(7, false)`: both arguments are reported, in order. -/
theorem validateCalls_reports_every_mismatch_witness :
    validateCalls 64 [addUserRow] [⟨[.int 7, .bool false]⟩] addUser.Args
      = ⟨[.errorf (lit "uid") (.int 7) (.int 42),
          .errorf (lit "active") (.bool false) (.bool true)], .returned ()⟩ :=
  (validateCalls_reports_every_mismatch 64 addUserRow addUser.Args ⟨[.int 7, .bool false]⟩
    (by decide)).1

theorem onlyErrorf_nil : onlyErrorf [] := by
  intro a ha
  simp at ha

theorem onlyErrorf_append {a b : List Action} (ha : onlyErrorf a) (hb : onlyErrorf b) :
    onlyErrorf (a ++ b) := by
  intro x hx
  rcases List.mem_append.1 hx with h | h
  · exact ha x h
  · exact hb x h

theorem Reported_bind (r : Res Unit) (f : Unit → Res Unit) (hr : Reported r)
    (hf : Reported (f ())) : Reported (r.bind f) := by
  obtain ⟨tr, e⟩ := r
  rcases hr with ⟨he, htr⟩ | ⟨he, tr0, fa, htr, h0⟩
  · simp only at he htr
    subst he
    rw [Res.bind_returned]
    rcases hf with ⟨hfe, hft⟩ | ⟨hfe, tr1, fb, hft, h1⟩
    · exact Or.inl ⟨hfe, onlyErrorf_append htr hft⟩
    · refine Or.inr ⟨hfe, tr ++ tr1, fb, ?_, onlyErrorf_append htr h1⟩
      simp [hft]
  · simp only at he htr
    subst he
    rw [Res.bind_goexit]
    exact Or.inr ⟨rfl, tr0, fa, htr, h0⟩

theorem Reported_reportIf (differ : Bool) (argName : GoString) (expected got : Value) :
    Reported (reportIf differ argName expected got) := by
  cases differ
  · exact Or.inl ⟨rfl, onlyErrorf_nil⟩
  · refine Or.inl ⟨rfl, ?_⟩
    intro a ha
    simp only [reportIf, if_true, List.mem_singleton] at ha
    exact ⟨_, _, _, ha⟩

theorem Reported_fatalf (f : Fatal) : Reported ⟨[.fatalf f], .goexit⟩ :=
  Or.inr ⟨rfl, [], f, rfl, onlyErrorf_nil⟩

/-- The type switch on a recorded value that passes the assertion of the case. -/
theorem Reported_validateValue (intBits : Nat) (call : Row) (arg : Argument) (expected : Value)
    (h : asserts expected (index call arg.Name) = true) :
    Reported (validateValue intBits call arg expected) := by
  unfold validateValue getString
  generalize index call arg.Name = recorded at h ⊢
  cases expected <;> cases recorded <;> simp [asserts] at h <;>
    first
    | exact Reported_reportIf _ _ _ _
    | exact Reported_fatalf _

theorem Reported_validateArgs (intBits : Nat) (call : Row) (callIndex : Nat)
    (expectedCalls : List Call) (expectedCall : Call)
    (hcall : expectedCalls[callIndex]? = some expectedCall) (args : List Argument) (k : Nat)
    (h : ∀ (j : Nat) (hj : j < args.length), ∃ e, expectedCall.Values[k + j]? = some e ∧
      asserts e (index call args[j].Name) = true) :
    Reported (validateArgs intBits call callIndex expectedCalls args k) := by
  induction args generalizing k with
  | nil => exact Or.inl ⟨rfl, onlyErrorf_nil⟩
  | cons arg rest ih =>
    obtain ⟨e, he, ha⟩ := h 0 (by simp)
    simp only [Nat.add_zero, List.getElem_cons_zero] at he ha
    simp only [validateArgs, hcall, he]
    refine Reported_bind _ _ (Reported_validateValue intBits call arg e ha) (ih (k + 1) ?_)
    intro j hj
    obtain ⟨e2, he2, ha2⟩ := h (j + 1) (by simp; omega)
    refine ⟨e2, ?_, by simpa using ha2⟩
    rw [← he2]
    congr 1
    omega

theorem Reported_validateCallsFrom (intBits : Nat) (expectedCalls : List Call)
    (args : List Argument) (calls : List Row) (k : Nat)
    (h : ∀ (i : Nat) (hi : i < calls.length), ∃ expectedCall,
      expectedCalls[k + i]? = some expectedCall ∧
      ∀ (j : Nat) (hj : j < args.length), ∃ e, expectedCall.Values[j]? = some e ∧
        asserts e (index calls[i] args[j].Name) = true) :
    Reported (validateCallsFrom intBits expectedCalls args calls k) := by
  induction calls generalizing k with
  | nil => exact Or.inl ⟨rfl, onlyErrorf_nil⟩
  | cons call rest ih =>
    obtain ⟨expectedCall, hcall, hargs⟩ := h 0 (by simp)
    simp only [Nat.add_zero, List.getElem_cons_zero] at hcall hargs
    simp only [validateCallsFrom]
    refine Reported_bind _ _
      (Reported_validateArgs intBits call k expectedCalls expectedCall hcall args 0
        (fun j hj => by simpa using hargs j hj)) (ih (k + 1) ?_)
    intro i hi
    obtain ⟨ec2, hc2, ha2⟩ := h (i + 1) (by simp; omega)
    refine ⟨ec2, ?_, by simpa using ha2⟩
    rw [← hc2]
    congr 1
    omega

/-- C9, as stated, fails: with fewer expected calls than recorded calls the index
`expectedCalls[callIndex]` is out of range, with fewer expected values than arguments
`Values[argIndex]` is, and the bool case asserts a bool on a recorded int64; each
time `validateCalls` panics without a report. -/
theorem validateCalls_panics_counterexample :
    validateCalls 64 [addUserRow] [] addUser.Args = ⟨[], .panicked⟩ ∧
    validateCalls 64 [addUserRow] [⟨[.int 42]⟩] addUser.Args = ⟨[], .panicked⟩ ∧
    validateCalls 64 [[(lit "uid", .int64 42)]] [⟨[.bool true]⟩] [⟨lit "uid", lit "bigint"⟩]
      = ⟨[], .panicked⟩ := by
  decide

/-- C9, amended: when every recorded call has an expected call at its index, and
for every argument that expected call has a value at the argument's index and the
recorded value under the argument's name passes the type assertion of the case of
that value, `validateCalls` does not panic: it returns after zero or more
`t.Errorf`, or ends in `runtime.Goexit` right after one `t.Fatalf`. -/
theorem validateCalls_reported (intBits : Nat) (calls : List Row) (expectedCalls : List Call)
    (args : List Argument)
    (h : ∀ (i : Nat) (hi : i < calls.length), ∃ expectedCall,
      expectedCalls[i]? = some expectedCall ∧
      ∀ (j : Nat) (hj : j < args.length), ∃ e, expectedCall.Values[j]? = some e ∧
        asserts e (index calls[i] args[j].Name) = true) :
    (validateCalls intBits calls expectedCalls args).ending ≠ .panicked ∧
    (((validateCalls intBits calls expectedCalls args).ending = .returned () ∧
        onlyErrorf (validateCalls intBits calls expectedCalls args).trace) ∨
      ((validateCalls intBits calls expectedCalls args).ending = .goexit ∧
        ∃ tr f, (validateCalls intBits calls expectedCalls args).trace = tr ++ [.fatalf f] ∧
          onlyErrorf tr)) := by
  have hr : Reported (validateCalls intBits calls expectedCalls args) :=
    Reported_validateCallsFrom intBits expectedCalls args calls 0
      (fun i hi => by simpa using h i hi)
  refine ⟨?_, hr⟩
  rcases hr with ⟨he, _⟩ | ⟨he, _⟩ <;> simp [he]

/-- Witness of the amended C9: `add_user` recorded with `(42, true)`, expected a
string for `uid` (the string case asserts nothing) and a float64 for `active`. -/
theorem validateCalls_reported_witness :
    (validateCalls 64 [addUserRow] [⟨[.string (lit "42"), .float64 0]⟩] addUser.Args).ending
      ≠ .panicked :=
  (validateCalls_reported 64 [addUserRow] [⟨[.string (lit "42"), .float64 0]⟩] addUser.Args
    (by decide)).1

/-- The statement that `createSQLFunctions` executes, and nothing before it. -/
theorem createSQLFunctions_trace {σ : Type} (db : DB σ) (function : Function) (s : σ) :
    ∃ rest, (createSQLFunctions db function s).2.trace
      = .exec (functionQuery function.Name (argsWithTypes function.Args) function.ReturnType
          (function.Body ++ if function.RaiseErrorCode ≠ [] then
            raiseStatement function.RaiseErrorCode else [])) :: rest := by
  unfold createSQLFunctions
  by_cases hcode : function.RaiseErrorCode = []
  · simp only [hcode, ne_eq, not_true_eq_false, if_false, List.append_nil]
    rcases hexec : db.Exec s (functionQuery function.Name (argsWithTypes function.Args)
      function.ReturnType function.Body) with ⟨s1, _ | err⟩
    · exact ⟨[], rfl⟩
    · exact ⟨_, rfl⟩
  · simp only [hcode, ne_eq, not_false_eq_true, if_true]
    rcases hexec : db.Exec s (functionQuery function.Name (argsWithTypes function.Args)
      function.ReturnType (function.Body ++ raiseStatement function.RaiseErrorCode))
      with ⟨s1, _ | err⟩
    · exact ⟨[], rfl⟩
    · exact ⟨_, rfl⟩

/-- What runs first stays at the front of the trace. -/
theorem andThen_trace {σ α β : Type} (p : σ × Res α) (f : α → σ → σ × Res β) :
    ∃ rest, (andThen p f).2.trace = p.2.trace ++ rest := by
  obtain ⟨s, tr, e⟩ := p
  cases e with
  | returned v => exact ⟨_, rfl⟩
  | goexit => exact ⟨[], by simp [andThen]⟩
  | panicked => exact ⟨[], by simp [andThen]⟩

/-- C10: when the statement that creates the tracking table succeeds, the next
statement `MockFunction` executes is the CREATE OR REPLACE FUNCTION whose body is the
INSERT statement, then the body of the caller's descriptor, then the RAISE statement
when an error code is set; the INSERT statement is a prefix of that body. The
descriptor is passed by value: the body is built from the caller's `function.Body`,
and `StubFunction` on the same descriptor afterwards installs the caller's body with no
INSERT statement before it. -/
theorem MockFunction_prepends_insert {σ : Type} (intBits : Nat) (function : Function)
    (expectedCalls : List Call) (db : DB σ) (testFunc : σ → σ × Ending Unit) (s s1 : σ)
    (h : db.Exec s (trackingTableQuery function.Name function.Args) = (s1, none)) :
    (∃ rest, (MockFunction intBits function expectedCalls db testFunc s).2.trace
      = .exec (trackingTableQuery function.Name function.Args) ::
        .exec (functionQuery function.Name (argsWithTypes function.Args) function.ReturnType
          (insertStatement function.Name function.Args ++ function.Body ++
            if function.RaiseErrorCode ≠ [] then raiseStatement function.RaiseErrorCode
            else [])) :: rest) ∧
    insertStatement function.Name function.Args <+:
      (insertStatement function.Name function.Args ++ function.Body ++
        if function.RaiseErrorCode ≠ [] then raiseStatement function.RaiseErrorCode else []) ∧
    (∀ (testFunc2 : σ → σ × Ending Unit) (s2 : σ),
      ∃ rest, (StubFunction function db testFunc2 s2).2.trace
        = .exec (functionQuery function.Name (argsWithTypes function.Args) function.ReturnType
            (function.Body ++ if function.RaiseErrorCode ≠ [] then
              raiseStatement function.RaiseErrorCode else [])) :: rest) := by
  refine ⟨?_, ?_, fun testFunc2 s2 => ?_⟩
  · obtain ⟨rest, hrest⟩ := createSQLFunctions_trace db
      { function with Body := insertStatement function.Name function.Args ++ function.Body } s1
    obtain ⟨rest2, hrest2⟩ := andThen_trace
      (createSQLFunctions db
        { function with Body := insertStatement function.Name function.Args ++ function.Body } s1)
      (fun _ s => andThen (runTestFunc testFunc s) fun _ s =>
        andThen (getCalls db function.Name s) fun calls s =>
          (s, validateCalls intBits calls expectedCalls function.Args))
    refine ⟨rest ++ rest2, ?_⟩
    simp only [MockFunction, createCallTrackingTable, h, andThen_returned, hrest2, hrest]
    simp
  · rw [List.append_assoc]
    exact List.prefix_append _ _
  · obtain ⟨rest, hrest⟩ := createSQLFunctions_trace db function s2
    obtain ⟨rest2, hrest2⟩ := andThen_trace (createSQLFunctions db function s2)
      (fun _ s => runTestFunc testFunc2 s)
    exact ⟨rest ++ rest2, by simp only [StubFunction, hrest2, hrest]; simp⟩

/-- Witness of C10: `add_user` with the body "PERFORM 1;" and the error code P0001 on
a database that executes every statement. -/
theorem MockFunction_prepends_insert_witness :
    (∃ rest, (MockFunction 64 addUserRaising [⟨[.int 42, .bool true]⟩] rowsDB (callTimes 1) []).2.trace
      = .exec (trackingTableQuery (lit "add_user") addUser.Args) ::
        .exec (functionQuery (lit "add_user") (argsWithTypes addUser.Args) (lit "void")
          (insertStatement (lit "add_user") addUser.Args ++ lit "PERFORM 1;" ++
            if lit "P0001" ≠ [] then raiseStatement (lit "P0001") else [])) :: rest) ∧
    insertStatement (lit "add_user") addUser.Args <+:
      (insertStatement (lit "add_user") addUser.Args ++ lit "PERFORM 1;" ++
        if lit "P0001" ≠ [] then raiseStatement (lit "P0001") else []) :=
  ⟨(MockFunction_prepends_insert 64 addUserRaising [⟨[.int 42, .bool true]⟩] rowsDB
      (callTimes 1) [] [] rfl).1,
   (MockFunction_prepends_insert 64 addUserRaising [⟨[.int 42, .bool true]⟩] rowsDB
      (callTimes 1) [] [] rfl).2.1⟩

/-- `strings.Join` puts the separator between consecutive elements. -/
theorem stringsJoin_eq_intercalate (elems : List GoString) (sep : GoString) :
    stringsJoin elems sep = sep.intercalate elems := by
  induction elems with
  | nil => rfl
  | cons a rest ih =>
    cases rest with
    | nil => simp [stringsJoin, List.intercalate]
    | cons b rest2 =>
      simp only [stringsJoin, ih]
      simp [List.intercalate, List.intersperse]

/-- The text of the CREATE OR REPLACE FUNCTION statement around its BEGIN..END block. -/
theorem functionQuery_block (name argsReadyWithTypes returnType body : GoString) :
    functionQuery name argsReadyWithTypes returnType body
      = lit "\n\t\tCREATE OR REPLACE FUNCTION " ++ name ++ lit "(" ++ argsReadyWithTypes
          ++ lit ") RETURNS " ++ returnType ++ lit "\n\t\t\tAS $$\n\t\t\t"
          ++ lit "BEGIN" ++ lit "\n\t\t\t\t" ++ body ++ lit "\n\t\t\t" ++ lit "END"
          ++ lit "\n\t\t$$ LANGUAGE plpgsql;\n\t" := by
  have h1 : lit "\n\t\t\tAS $$\n\t\t\tBEGIN\n\t\t\t\t"
      = lit "\n\t\t\tAS $$\n\t\t\t" ++ lit "BEGIN" ++ lit "\n\t\t\t\t" := by decide
  have h2 : lit "\n\t\t\tEND\n\t\t$$ LANGUAGE plpgsql;\n\t"
      = lit "\n\t\t\t" ++ lit "END" ++ lit "\n\t\t$$ LANGUAGE plpgsql;\n\t" := by decide
  simp only [functionQuery, h1, h2, List.append_assoc]

/-- C11: the statement `createSQLFunctions` executes holds, between BEGIN and END, the
body of the descriptor followed by the statement
`RAISE 'error from pgexpect' USING ERRCODE = '<RaiseErrorCode>';` when the error code
is not empty, and the body alone when it is empty; with an empty body and the error
code P0001 it holds exactly that RAISE statement with 'P0001'. -/
theorem createSQLFunctions_embeds_body {σ : Type} (db : DB σ) (function : Function) (s : σ) :
    (∀ body : GoString,
      functionQuery function.Name (argsWithTypes function.Args) function.ReturnType body
        = lit "\n\t\tCREATE OR REPLACE FUNCTION " ++ function.Name ++ lit "("
            ++ argsWithTypes function.Args ++ lit ") RETURNS " ++ function.ReturnType
            ++ lit "\n\t\t\tAS $$\n\t\t\t"
            ++ lit "BEGIN" ++ lit "\n\t\t\t\t" ++ body ++ lit "\n\t\t\t" ++ lit "END"
            ++ lit "\n\t\t$$ LANGUAGE plpgsql;\n\t") ∧
    (function.RaiseErrorCode ≠ [] →
      ∃ rest, (createSQLFunctions db function s).2.trace
        = .exec (functionQuery function.Name (argsWithTypes function.Args) function.ReturnType
            (function.Body ++ (lit "RAISE \x27error from pgexpect\x27 USING ERRCODE = \x27"
              ++ function.RaiseErrorCode ++ lit "\x27;"))) :: rest) ∧
    (function.RaiseErrorCode = [] →
      ∃ rest, (createSQLFunctions db function s).2.trace
        = .exec (functionQuery function.Name (argsWithTypes function.Args) function.ReturnType
            function.Body) :: rest) ∧
    (function.Body = [] → function.RaiseErrorCode = lit "P0001" →
      ∃ rest, (createSQLFunctions db function s).2.trace
        = .exec (functionQuery function.Name (argsWithTypes function.Args) function.ReturnType
            (lit "RAISE \x27error from pgexpect\x27 USING ERRCODE = \x27P0001\x27;")) :: rest) := by
  obtain ⟨rest, hrest⟩ := createSQLFunctions_trace db function s
  refine ⟨fun body => functionQuery_block _ _ _ body, fun hcode => ⟨rest, ?_⟩,
    fun hcode => ⟨rest, ?_⟩, fun hbody hcode => ⟨rest, ?_⟩⟩
  · rw [hrest, if_pos hcode]
    rfl
  · rw [hrest, hcode]
    simp
  · rw [hrest, hbody, hcode]
    have hp : lit "P0001" ≠ [] := by decide
    have hr : raiseStatement (lit "P0001")
        = lit "RAISE \x27error from pgexpect\x27 USING ERRCODE = \x27P0001\x27;" := by decide
    rw [if_pos hp, hr]
    rfl

/-- Witness of C11: `add_user` with an empty body and the error code P0001 on a
database that executes every statement. -/
theorem createSQLFunctions_embeds_body_witness :
    ∃ rest, (createSQLFunctions rowsDB { addUser with RaiseErrorCode := lit "P0001" } []).2.trace
      = .exec (functionQuery (lit "add_user") (argsWithTypes addUser.Args) (lit "void")
          (lit "RAISE \x27error from pgexpect\x27 USING ERRCODE = \x27P0001\x27;")) :: rest :=
  (createSQLFunctions_embeds_body rowsDB { addUser with RaiseErrorCode := lit "P0001" } []).2.2.2
    rfl rfl

/-- The INSERT statement, with the argument names joined by commas. -/
theorem insertStatement_eq (functionName : GoString) (args : List Argument) :
    insertStatement functionName args
      = lit "INSERT INTO " ++ functionName ++ lit "_calls ("
          ++ (lit ",").intercalate (args.map fun arg => arg.Name) ++ lit ") VALUES("
          ++ (lit ",").intercalate (args.map fun arg => arg.Name) ++ lit ");" := by
  simp only [insertStatement, argNamesReady, stringsJoin_eq_intercalate]

/-- C12: when the table statement succeeds, `createCallTrackingTable` returns exactly
`INSERT INTO f_calls (n1,...,nk) VALUES(n1,...,nk);`: the column list and the value
list are both the argument names in argument order, joined by commas. The text
depends on the names only, not on the argument types. -/
theorem createCallTrackingTable_returns_insert {σ : Type} (db : DB σ) (functionName : GoString)
    (args : List Argument) (s s1 : σ)
    (h : db.Exec s (trackingTableQuery functionName args) = (s1, none)) :
    (createCallTrackingTable db functionName args s).2.ending
      = .returned (lit "INSERT INTO " ++ functionName ++ lit "_calls ("
          ++ (lit ",").intercalate (args.map fun arg => arg.Name) ++ lit ") VALUES("
          ++ (lit ",").intercalate (args.map fun arg => arg.Name) ++ lit ");") ∧
    (∀ (args2 : List Argument) (s2 s3 : σ),
      (args2.map fun arg => arg.Name) = (args.map fun arg => arg.Name) →
      db.Exec s2 (trackingTableQuery functionName args2) = (s3, none) →
      (createCallTrackingTable db functionName args2 s2).2.ending
        = (createCallTrackingTable db functionName args s).2.ending) := by
  have h1 : (createCallTrackingTable db functionName args s).2.ending
      = .returned (insertStatement functionName args) := by
    simp [createCallTrackingTable, h]
  refine ⟨by rw [h1, insertStatement_eq], fun args2 s2 s3 hnames h2 => ?_⟩
  have h3 : (createCallTrackingTable db functionName args2 s2).2.ending
      = .returned (insertStatement functionName args2) := by
    simp [createCallTrackingTable, h2]
  rw [h1, h3, insertStatement_eq, insertStatement_eq, hnames]

/-- Witness of C12: for `add_user(uid bigint, active boolean)` the returned statement
is `INSERT INTO add_user_calls (uid,active) VALUES(uid,active);`. -/
theorem createCallTrackingTable_returns_insert_witness :
    (createCallTrackingTable rowsDB (lit "add_user") addUser.Args []).2.ending
      = .returned (lit "INSERT INTO add_user_calls (uid,active) VALUES(uid,active);") :=
  ((createCallTrackingTable_returns_insert rowsDB (lit "add_user") addUser.Args [] [] rfl).1).trans
    (by decide)

/-- The statement that `createCallTrackingTable` executes, and nothing before it. -/
theorem createCallTrackingTable_trace {σ : Type} (db : DB σ) (functionName : GoString)
    (args : List Argument) (s : σ) :
    ∃ rest, (createCallTrackingTable db functionName args s).2.trace
      = .exec (trackingTableQuery functionName args) :: rest := by
  simp only [createCallTrackingTable]
  rcases hexec : db.Exec s (trackingTableQuery functionName args) with ⟨s1, _ | err⟩
  · exact ⟨[], rfl⟩
  · exact ⟨_, rfl⟩

/-- C13: the statement `createCallTrackingTable` executes is
`DROP TABLE IF EXISTS f_calls;` and then `CREATE TABLE f_calls (..);` whose columns are
the items `name type` of the arguments, in argument order, joined by commas; the
parameter list in the statement of `createSQLFunctions` for the same arguments is the
same text. -/
theorem createCallTrackingTable_drops_then_creates {σ : Type} (db : DB σ) (function : Function)
    (s s2 : σ) :
    (∃ rest, (createCallTrackingTable db function.Name function.Args s).2.trace
      = .exec (lit "\n\t\t" ++ lit "DROP TABLE IF EXISTS " ++ function.Name ++ lit "_calls;"
          ++ lit "\n\t\t" ++ lit "CREATE TABLE " ++ function.Name ++ lit "_calls ("
          ++ (lit ",").intercalate (function.Args.map fun arg => arg.Name ++ lit " " ++ arg.Typ)
          ++ lit ");" ++ lit "\n\t") :: rest) ∧
    (∃ body rest, (createSQLFunctions db function s2).2.trace
      = .exec (functionQuery function.Name
          ((lit ",").intercalate (function.Args.map fun arg => arg.Name ++ lit " " ++ arg.Typ))
          function.ReturnType body) :: rest) := by
  constructor
  · obtain ⟨rest, hrest⟩ := createCallTrackingTable_trace db function.Name function.Args s
    refine ⟨rest, ?_⟩
    have h1 : lit "\n\t\tDROP TABLE IF EXISTS " = lit "\n\t\t" ++ lit "DROP TABLE IF EXISTS " := by
      decide
    have h2 : lit "_calls;\n\t\tCREATE TABLE "
        = lit "_calls;" ++ lit "\n\t\t" ++ lit "CREATE TABLE " := by decide
    have h3 : lit ");\n\t" = lit ");" ++ lit "\n\t" := by decide
    rw [hrest]
    simp only [trackingTableQuery, argsWithTypes, stringsJoin_eq_intercalate, h1, h2, h3,
      List.append_assoc]
  · obtain ⟨rest, hrest⟩ := createSQLFunctions_trace db function s2
    refine ⟨function.Body ++ if function.RaiseErrorCode ≠ [] then
      raiseStatement function.RaiseErrorCode else [], rest, ?_⟩
    rw [hrest]
    simp only [argsWithTypes, stringsJoin_eq_intercalate]

/-- The result of `createSQLFunctions`, from the result of its `db.Exec`. -/
theorem createSQLFunctions_of_exec {σ : Type} (db : DB σ) (function : Function) (s s1 : σ)
    (r : Option DbError) (h : db.Exec s (stubQuery function) = (s1, r)) :
    createSQLFunctions db function s
      = (s1, match r with
          | some err =>
            ⟨[.exec (stubQuery function), .fatalf (.sqlFunction function.Name err)], .goexit⟩
          | none => ⟨[.exec (stubQuery function)], .returned ()⟩) := by
  unfold stubQuery bodyWithRaise at h
  unfold stubQuery bodyWithRaise
  by_cases hcode : function.RaiseErrorCode = []
  · simp only [hcode, ne_eq, not_true_eq_false, if_false, List.append_nil] at h ⊢
    simp only [createSQLFunctions, hcode, ne_eq, not_true_eq_false, if_false, h]
    cases r <;> rfl
  · simp only [hcode, ne_eq, not_false_eq_true, if_true] at h ⊢
    simp only [createSQLFunctions, hcode, ne_eq, not_false_eq_true, if_true, h]
    cases r <;> rfl

/-- The result of `createCallTrackingTable`, from the result of its `db.Exec`. -/
theorem createCallTrackingTable_of_exec {σ : Type} (db : DB σ) (functionName : GoString)
    (args : List Argument) (s s1 : σ) (r : Option DbError)
    (h : db.Exec s (trackingTableQuery functionName args) = (s1, r)) :
    createCallTrackingTable db functionName args s
      = (s1, match r with
          | some err =>
            ⟨[.exec (trackingTableQuery functionName args),
              .fatalf (.trackingTable functionName err)], .goexit⟩
          | none =>
            ⟨[.exec (trackingTableQuery functionName args)],
              .returned (insertStatement functionName args)⟩) := by
  simp only [createCallTrackingTable, h]
  cases r <;> rfl

/-- A row that does not scan ends the loop of `getCalls` in `t.Fatalf`. -/
theorem scanRows_error (pre : List Row) (err : DbError) (post : List (Except DbError Row))
    (calls : List Row) :
    scanRows (pre.map .ok ++ .error err :: post) calls
      = ⟨[.fatalf (.scanning err)], .goexit⟩ := by
  induction pre generalizing calls with
  | nil => simp [scanRows]
  | cons r rest ih => simp [scanRows, ih]

/-- `MockFunction` up to the test body, when both statements succeed. -/
theorem MockFunction_installed {σ : Type} (intBits : Nat) (function : Function)
    (expectedCalls : List Call) (db : DB σ) (testFunc : σ → σ × Ending Unit) (s s1 s2 : σ)
    (h1 : db.Exec s (trackingTableQuery function.Name function.Args) = (s1, none))
    (h2 : db.Exec s1 (mockQuery function) = (s2, none)) :
    MockFunction intBits function expectedCalls db testFunc s
      = andThen ((testFunc s2).1, ⟨[.exec (trackingTableQuery function.Name function.Args),
          .exec (mockQuery function), .testFunc], (testFunc s2).2⟩) fun _ s =>
          andThen (getCalls db function.Name s) fun calls s =>
            (s, validateCalls intBits calls expectedCalls function.Args) := by
  have hc := createCallTrackingTable_of_exec db function.Name function.Args s s1 none h1
  have hf := createSQLFunctions_of_exec db
    { function with Body := insertStatement function.Name function.Args ++ function.Body }
    s1 s2 none h2
  simp only at hc hf
  simp only [MockFunction, hc, andThen_returned, hf, runTestFunc]
  rcases ht : testFunc s2 with ⟨s3, _ | _ | _⟩ <;> simp [andThen, mockQuery]

/-- C14: `MockFunction` creates the tracking table, installs the procedure, runs the
test body, fetches the calls and validates them, in that order, and ends at the first
step that fails: a failed table statement is followed by its `t.Fatalf` only; a failed
function statement likewise, before the test body; a test body that does not return
ends the run; a failed query, a failed scan or a number of rows other than 1 ends in
`t.Fatalf` with no report of `validateCalls`; with exactly one row the reports of
`validateCalls` come last. -/
theorem MockFunction_steps {σ : Type} (intBits : Nat) (function : Function)
    (expectedCalls : List Call) (db : DB σ) (testFunc : σ → σ × Ending Unit) (s : σ) :
    (∀ s1 err, db.Exec s (trackingTableQuery function.Name function.Args) = (s1, some err) →
      MockFunction intBits function expectedCalls db testFunc s
        = (s1, ⟨[.exec (trackingTableQuery function.Name function.Args),
            .fatalf (.trackingTable function.Name err)], .goexit⟩)) ∧
    (∀ s1 s2 err, db.Exec s (trackingTableQuery function.Name function.Args) = (s1, none) →
      db.Exec s1 (mockQuery function) = (s2, some err) →
      MockFunction intBits function expectedCalls db testFunc s
        = (s2, ⟨[.exec (trackingTableQuery function.Name function.Args),
            .exec (mockQuery function), .fatalf (.sqlFunction function.Name err)], .goexit⟩)) ∧
    (∀ s1 s2, db.Exec s (trackingTableQuery function.Name function.Args) = (s1, none) →
      db.Exec s1 (mockQuery function) = (s2, none) →
      ((testFunc s2).2 = .goexit →
        MockFunction intBits function expectedCalls db testFunc s
          = ((testFunc s2).1, ⟨[.exec (trackingTableQuery function.Name function.Args),
              .exec (mockQuery function), .testFunc], .goexit⟩)) ∧
      ((testFunc s2).2 = .panicked →
        MockFunction intBits function expectedCalls db testFunc s
          = ((testFunc s2).1, ⟨[.exec (trackingTableQuery function.Name function.Args),
              .exec (mockQuery function), .testFunc], .panicked⟩)) ∧
      ((testFunc s2).2 = .returned () →
        (∀ s4 err, db.Queryx (testFunc s2).1 (selectQuery function.Name) = (s4, .error err) →
          MockFunction intBits function expectedCalls db testFunc s
            = (s4, ⟨[.exec (trackingTableQuery function.Name function.Args),
                .exec (mockQuery function), .testFunc, .queryx (selectQuery function.Name),
                .fatalf (.gettingCalls err)], .goexit⟩)) ∧
        (∀ s4 (pre : List Row) err post, db.Queryx (testFunc s2).1 (selectQuery function.Name)
            = (s4, .ok (pre.map .ok ++ .error err :: post)) →
          MockFunction intBits function expectedCalls db testFunc s
            = (s4, ⟨[.exec (trackingTableQuery function.Name function.Args),
                .exec (mockQuery function), .testFunc, .queryx (selectQuery function.Name),
                .fatalf (.scanning err)], .goexit⟩)) ∧
        (∀ s4 (rows : List Row), db.Queryx (testFunc s2).1 (selectQuery function.Name)
            = (s4, .ok (rows.map .ok)) → rows.length ≠ 1 →
          MockFunction intBits function expectedCalls db testFunc s
            = (s4, ⟨[.exec (trackingTableQuery function.Name function.Args),
                .exec (mockQuery function), .testFunc, .queryx (selectQuery function.Name),
                .fatalf (.callCount rows.length)], .goexit⟩)) ∧
        (∀ s4 (row : Row), db.Queryx (testFunc s2).1 (selectQuery function.Name)
            = (s4, .ok [.ok row]) →
          MockFunction intBits function expectedCalls db testFunc s
            = (s4, ⟨[.exec (trackingTableQuery function.Name function.Args),
                .exec (mockQuery function), .testFunc, .queryx (selectQuery function.Name)]
                ++ (validateCalls intBits [row] expectedCalls function.Args).trace,
                (validateCalls intBits [row] expectedCalls function.Args).ending⟩)))) := by
  refine ⟨fun s1 err h1 => ?_, fun s1 s2 err h1 h2 => ?_, fun s1 s2 h1 h2 => ?_⟩
  · have hc := createCallTrackingTable_of_exec db function.Name function.Args s s1 _ h1
    simp only at hc
    simp only [MockFunction, hc, andThen_goexit]
  · have hc := createCallTrackingTable_of_exec db function.Name function.Args s s1 none h1
    have hf := createSQLFunctions_of_exec db
      { function with Body := insertStatement function.Name function.Args ++ function.Body }
      s1 s2 (some err) h2
    simp only at hc hf
    simp only [MockFunction, hc, andThen_returned, hf, andThen_goexit]
    simp [mockQuery]
  · rw [MockFunction_installed intBits function expectedCalls db testFunc s s1 s2 h1 h2]
    refine ⟨fun ht => ?_, fun ht => ?_, fun ht => ⟨fun s4 err hq => ?_,
      fun s4 pre err post hq => ?_, fun s4 rows hq hlen => ?_, fun s4 row hq => ?_⟩⟩
    · rw [ht, andThen_goexit]
    · rw [ht, andThen_panicked]
    · rw [ht, andThen_returned]
      simp [getCalls, hq, andThen]
    · rw [ht, andThen_returned]
      simp [getCalls, hq, andThen, scanRows_error, Res.bind]
    · rw [ht, andThen_returned, getCalls_of_rows db function.Name _ s4 rows hq]
      simp [hlen, andThen]
    · rw [ht, andThen_returned, getCalls_of_rows db function.Name _ s4 [row] hq]
      simp [andThen]

/-- Witness of C14: on a database whose first `Exec` fails the run is the table
statement and its `t.Fatalf`; on one whose second `Exec` fails it is the two statements
and the `t.Fatalf` of the second, without the test body. -/
theorem MockFunction_steps_witness :
    MockFunction 64 addUser [⟨[.int 42, .bool true]⟩] (scriptDB (fun n => n == 0) (.ok []))
        (fun n => (n, .returned ())) 0
      = (1, ⟨[.exec (trackingTableQuery addUser.Name addUser.Args),
          .fatalf (.trackingTable addUser.Name (lit "syntax error"))], .goexit⟩) ∧
    MockFunction 64 addUser [⟨[.int 42, .bool true]⟩] (scriptDB (fun n => n == 1) (.ok []))
        (fun n => (n, .returned ())) 0
      = (2, ⟨[.exec (trackingTableQuery addUser.Name addUser.Args), .exec (mockQuery addUser),
          .fatalf (.sqlFunction addUser.Name (lit "syntax error"))], .goexit⟩) :=
  ⟨(MockFunction_steps 64 addUser [⟨[.int 42, .bool true]⟩] (scriptDB (fun n => n == 0) (.ok []))
      (fun n => (n, .returned ())) 0).1 1 (lit "syntax error") rfl,
   (MockFunction_steps 64 addUser [⟨[.int 42, .bool true]⟩] (scriptDB (fun n => n == 1) (.ok []))
      (fun n => (n, .returned ())) 0).2.1 1 2 (lit "syntax error") rfl rfl⟩

/-- C15, as stated, fails: when the CREATE OR REPLACE FUNCTION statement fails,
`StubFunction` ends in `t.Fatalf` and the test body is not run. -/
theorem StubFunction_counterexample :
    StubFunction addUser (scriptDB (fun _ => true) (.ok [])) (fun n => (n, .returned ())) 0
      = (1, ⟨[.exec (stubQuery addUser),
          .fatalf (.sqlFunction (lit "add_user") (lit "syntax error"))], .goexit⟩) ∧
    Action.testFunc ∉
      (StubFunction addUser (scriptDB (fun _ => true) (.ok [])) (fun n => (n, .returned ()))
        0).2.trace := by
  have h : StubFunction addUser (scriptDB (fun _ => true) (.ok [])) (fun n => (n, .returned ())) 0
      = (1, ⟨[.exec (stubQuery addUser),
          .fatalf (.sqlFunction (lit "add_user") (lit "syntax error"))], .goexit⟩) := by
    rw [StubFunction, createSQLFunctions_of_exec (scriptDB (fun _ => true) (.ok [])) addUser 0 1
      (some (lit "syntax error")) rfl]
    rfl
  refine ⟨h, ?_⟩
  rw [h]
  simp

/-- C15, amended: `StubFunction` executes exactly one database statement, the
CREATE OR REPLACE FUNCTION of the descriptor, whose body is the body of the descriptor
followed by the RAISE statement when an error code is set, with nothing before it; it
executes no other statement and no query. When the statement succeeds it then runs the
test body once and ends as the test body does; when the statement fails it ends in
`t.Fatalf` and the test body is not run. -/
theorem StubFunction_replace_only {σ : Type} (function : Function) (db : DB σ)
    (testFunc : σ → σ × Ending Unit) (s : σ) :
    stubQuery function
      = functionQuery function.Name (argsWithTypes function.Args) function.ReturnType
          (function.Body ++ if function.RaiseErrorCode ≠ [] then
            raiseStatement function.RaiseErrorCode else []) ∧
    (∀ s1, db.Exec s (stubQuery function) = (s1, none) →
      StubFunction function db testFunc s
        = ((testFunc s1).1, ⟨[.exec (stubQuery function), .testFunc], (testFunc s1).2⟩)) ∧
    (∀ s1 err, db.Exec s (stubQuery function) = (s1, some err) →
      StubFunction function db testFunc s
        = (s1, ⟨[.exec (stubQuery function), .fatalf (.sqlFunction function.Name err)],
            .goexit⟩)) ∧
    (StubFunction function db testFunc s).2.trace.filter
        (fun a => match a with
          | .exec _ => true
          | .queryx _ => true
          | _ => false)
      = [.exec (stubQuery function)] := by
  have hok : ∀ s1, db.Exec s (stubQuery function) = (s1, none) →
      StubFunction function db testFunc s
        = ((testFunc s1).1, ⟨[.exec (stubQuery function), .testFunc], (testFunc s1).2⟩) := by
    intro s1 h
    rw [StubFunction, createSQLFunctions_of_exec db function s s1 none h]
    rfl
  have herr : ∀ s1 err, db.Exec s (stubQuery function) = (s1, some err) →
      StubFunction function db testFunc s
        = (s1, ⟨[.exec (stubQuery function), .fatalf (.sqlFunction function.Name err)],
            .goexit⟩) := by
    intro s1 err h
    rw [StubFunction, createSQLFunctions_of_exec db function s s1 (some err) h]
    rfl
  refine ⟨rfl, hok, herr, ?_⟩
  rcases hexec : db.Exec s (stubQuery function) with ⟨s1, _ | err⟩
  · rw [hok s1 hexec]
    rfl
  · rw [herr s1 err hexec]
    rfl

/-- Witness of the amended C15: `add_user` on a database that executes every
statement; the run is the statement and the test body. -/
theorem StubFunction_replace_only_witness :
    StubFunction addUser rowsDB (callTimes 1) []
      = ([addUserRow], ⟨[.exec (stubQuery addUser), .testFunc], .returned ()⟩) :=
  (StubFunction_replace_only addUser rowsDB (callTimes 1) []).2.1 [] rfl

/-- In a row that stores no column name twice, a lookup finds exactly the stored pairs. -/
theorem lookup_eq_some_iff_mem (row : Row) (hnd : (row.map Prod.fst).Nodup) (name : GoString)
    (v : Value) : row.lookup name = some v ↔ (name, v) ∈ row := by
  induction row with
  | nil => simp
  | cons p rest ih =>
    obtain ⟨k, w⟩ := p
    simp only [List.map_cons, List.nodup_cons] at hnd
    obtain ⟨hk, hrest⟩ := hnd
    by_cases hname : name = k
    · subst hname
      simp only [List.lookup_cons_self, Option.some.injEq, List.mem_cons, Prod.mk.injEq,
        true_and]
      constructor
      · intro h
        exact Or.inl h.symm
      · rintro (h | h)
        · exact h.symm
        · exact absurd (List.mem_map_of_mem Prod.fst h) hk
    · have hbeq : (name == k) = false := by simpa using hname
      simp [List.lookup_cons, hbeq, ih hrest, hname]

/-- The order in which the columns of a row are stored does not change an index
expression, when no column name is stored twice. -/
theorem index_perm (row row2 : Row) (hperm : row.Perm row2) (hnd : (row.map Prod.fst).Nodup)
    (name : GoString) : index row name = index row2 name := by
  have hnd2 : (row2.map Prod.fst).Nodup := (hperm.map Prod.fst).nodup_iff.1 hnd
  have h : row.lookup name = row2.lookup name := by
    ext v
    simp only [Option.mem_def]
    rw [lookup_eq_some_iff_mem row hnd, lookup_eq_some_iff_mem row2 hnd2]
    exact hperm.mem_iff
  simp only [index, h]

/-- Columns under other names do not change an index expression. -/
theorem index_append_other (row extra : Row) (name : GoString)
    (h : ∀ p ∈ extra, p.1 ≠ name) :
    index (row ++ extra) name = index row name ∧ index (extra ++ row) name = index row name := by
  have hnone : extra.lookup name = none := by
    rw [List.lookup_eq_none_iff]
    intro p hp
    simpa using (h p hp).symm
  constructor
  · simp only [index, List.lookup_append, hnone]
    cases row.lookup name <;> rfl
  · simp only [index, List.lookup_append, hnone]
    cases row.lookup name <;> rfl

/-- The type switch reads the row only at the name of the argument. -/
theorem validateValue_congr (intBits : Nat) (call call2 : Row) (arg : Argument)
    (expected : Value) (h : index call arg.Name = index call2 arg.Name) :
    validateValue intBits call arg expected = validateValue intBits call2 arg expected := by
  cases expected <;> simp only [validateValue, h]

/-- The inner loop reads the row only at the names of the arguments. -/
theorem validateArgs_congr (intBits : Nat) (call call2 : Row) (callIndex : Nat)
    (expectedCalls : List Call) (args : List Argument) (k : Nat)
    (h : ∀ arg ∈ args, index call arg.Name = index call2 arg.Name) :
    validateArgs intBits call callIndex expectedCalls args k
      = validateArgs intBits call2 callIndex expectedCalls args k := by
  induction args generalizing k with
  | nil => rfl
  | cons arg rest ih =>
    have hrest : ∀ a ∈ rest, index call a.Name = index call2 a.Name :=
      fun a ha => h a (List.mem_cons_of_mem _ ha)
    simp only [validateArgs, validateValue_congr intBits call call2 arg _
      (h arg (List.mem_cons_self _ _)), fun k => ih k hrest]

/-- The outer loop reads the rows only at the names of the arguments. -/
theorem validateCallsFrom_congr (intBits : Nat) (expectedCalls : List Call)
    (args : List Argument) (calls calls2 : List Row) (k : Nat)
    (h : List.Forall₂ (fun r r2 => ∀ arg ∈ args, index r arg.Name = index r2 arg.Name)
      calls calls2) :
    validateCallsFrom intBits expectedCalls args calls k
      = validateCallsFrom intBits expectedCalls args calls2 k := by
  induction h generalizing k with
  | nil => rfl
  | cons hr _ ih =>
    simp only [validateCallsFrom, validateArgs_congr intBits _ _ k expectedCalls args 0 hr, ih]

/-- C16: `validateCalls` reads the recorded rows only through `call[arg.Name]`: two
lists of rows that hold, row by row, the same value under the name of every argument
give the same result; so do two rows that store the same columns in a different order,
and a row with or without columns under names that are not argument names. -/
theorem validateCalls_reads_by_name (intBits : Nat) (expectedCalls : List Call)
    (args : List Argument) :
    (∀ calls calls2 : List Row,
      List.Forall₂ (fun r r2 => ∀ arg ∈ args, index r arg.Name = index r2 arg.Name)
        calls calls2 →
      validateCalls intBits calls expectedCalls args
        = validateCalls intBits calls2 expectedCalls args) ∧
    (∀ row row2 : Row, (∀ arg ∈ args, index row arg.Name = index row2 arg.Name) →
      validateCalls intBits [row] expectedCalls args
        = validateCalls intBits [row2] expectedCalls args) ∧
    (∀ row row2 : Row, row.Perm row2 → (row.map Prod.fst).Nodup →
      validateCalls intBits [row] expectedCalls args
        = validateCalls intBits [row2] expectedCalls args) ∧
    (∀ row extra : Row, (∀ p ∈ extra, ∀ arg ∈ args, p.1 ≠ arg.Name) →
      validateCalls intBits [row ++ extra] expectedCalls args
          = validateCalls intBits [row] expectedCalls args ∧
        validateCalls intBits [extra ++ row] expectedCalls args
          = validateCalls intBits [row] expectedCalls args) := by
  have hrows : ∀ calls calls2 : List Row,
      List.Forall₂ (fun r r2 => ∀ arg ∈ args, index r arg.Name = index r2 arg.Name)
        calls calls2 →
      validateCalls intBits calls expectedCalls args
        = validateCalls intBits calls2 expectedCalls args :=
    fun calls calls2 h => validateCallsFrom_congr intBits expectedCalls args calls calls2 0 h
  have hrow : ∀ row row2 : Row, (∀ arg ∈ args, index row arg.Name = index row2 arg.Name) →
      validateCalls intBits [row] expectedCalls args
        = validateCalls intBits [row2] expectedCalls args :=
    fun row row2 h => hrows [row] [row2] (List.Forall₂.cons h List.Forall₂.nil)
  refine ⟨hrows, hrow, fun row row2 hperm hnd => ?_, fun row extra h => ⟨?_, ?_⟩⟩
  · exact hrow row row2 fun arg _ => index_perm row row2 hperm hnd arg.Name
  · exact hrow _ _ fun arg harg =>
      (index_append_other row extra arg.Name fun p hp => h p hp arg harg).1
  · exact hrow _ _ fun arg harg =>
      (index_append_other row extra arg.Name fun p hp => h p hp arg harg).2

/-- Witness of C16: the row of `add_user(42, true)` and a row that stores `active`
first, then a column `note`, then `uid`. -/
theorem validateCalls_reads_by_name_witness :
    validateCalls 64 [addUserRow] [⟨[.int 7, .bool true]⟩] addUser.Args
      = validateCalls 64
          [[(lit "active", .bool true), (lit "note", .string (lit "x")), (lit "uid", .int64 42)]]
          [⟨[.int 7, .bool true]⟩] addUser.Args :=
  (validateCalls_reads_by_name 64 [⟨[.int 7, .bool true]⟩] addUser.Args).2.1 addUserRow
    [(lit "active", .bool true), (lit "note", .string (lit "x")), (lit "uid", .int64 42)]
    (by decide)

/-- The conversion to an `int` of `intBits` bits gives the value of the signed range
that differs from the argument by a multiple of `2 ^ intBits`. -/
theorem toInt_narrows (intBits : Nat) (hbits : 0 < intBits) (a : Int) :
    -(2 ^ (intBits - 1)) ≤ toInt intBits a ∧ toInt intBits a < 2 ^ (intBits - 1) ∧
      (2 : Int) ^ intBits ∣ toInt intBits a - a := by
  obtain ⟨w, rfl⟩ : ∃ w, intBits = w + 1 := ⟨intBits - 1, by omega⟩
  have hm : (0 : Int) < 2 ^ w := by positivity
  have h2 : (2 : Int) ^ (w + 1) = 2 * 2 ^ w := by ring
  simp only [toInt, Nat.add_sub_cancel, h2]
  generalize (2 : Int) ^ w = m at hm
  have hpos : (0 : Int) < 2 * m := by omega
  have h0 := Int.emod_nonneg (a + m) (ne_of_gt hpos)
  have h1 := Int.emod_lt_of_pos (a + m) hpos
  refine ⟨by omega, by omega, ?_⟩
  have hd := Int.emod_add_ediv (a + m) (2 * m)
  exact ⟨-((a + m) / (2 * m)), by linarith⟩

/-- With a 64-bit `int` the conversion of an `int64` is the identity. -/
theorem toInt_64 (a : Int) (hlo : -(2 ^ 63) ≤ a) (hhi : a < 2 ^ 63) : toInt 64 a = a := by
  unfold toInt
  omega

/-- The int case on a recorded int64. -/
theorem validateCalls_int_iff (intBits : Nat) (call : Row) (arg : Argument) (e a : Int)
    (hrec : index call arg.Name = .int64 a) :
    validateCalls intBits [call] [⟨[.int e]⟩] [arg] = ⟨[], .returned ()⟩
      ↔ e = toInt intBits a := by
  have hr : reads (.int e) (index call arg.Name) = true := by rw [hrec]; rfl
  rw [validateCalls_single, validateValue_of_reads intBits call arg _ hr, hrec]
  by_cases h : e = toInt intBits a <;> simp [equalUnderRule, h, reportIf]

/-- C17: an expected `int` `e` against a recorded int64 `a` gives no mismatch exactly
when `e` is `a` converted to `int`: the value of the signed range of the platform
width that differs from `a` by a multiple of two to that width. With a 64-bit `int`
the conversion is the identity on the int64 range, so there is no mismatch exactly
when `e = a`; expected 42 against recorded 42 passes. -/
theorem validateCalls_int (intBits : Nat) (arg : Argument) :
    (∀ (call : Row) (e a : Int), index call arg.Name = .int64 a →
      (validateCalls intBits [call] [⟨[.int e]⟩] [arg] = ⟨[], .returned ()⟩
        ↔ e = toInt intBits a)) ∧
    (0 < intBits → ∀ a : Int,
      -(2 ^ (intBits - 1)) ≤ toInt intBits a ∧ toInt intBits a < 2 ^ (intBits - 1) ∧
        (2 : Int) ^ intBits ∣ toInt intBits a - a) ∧
    (∀ (call : Row) (e a : Int), index call arg.Name = .int64 a →
      -(2 ^ 63) ≤ a → a < 2 ^ 63 →
      (validateCalls 64 [call] [⟨[.int e]⟩] [arg] = ⟨[], .returned ()⟩ ↔ e = a)) ∧
    validateCalls 64 [[(arg.Name, .int64 42)]] [⟨[.int 42]⟩] [arg] = ⟨[], .returned ()⟩ := by
  refine ⟨fun call e a h => validateCalls_int_iff intBits call arg e a h,
    fun hbits a => toInt_narrows intBits hbits a, fun call e a h hlo hhi => ?_, ?_⟩
  · rw [validateCalls_int_iff 64 call arg e a h, toInt_64 a hlo hhi]
  · rw [validateCalls_int_iff 64 _ arg 42 42 (index_singleton _ _)]
    decide

/-- Witness of C17 at the name `uid`: with a 64-bit `int`, expected 42 against
recorded 42 passes and expected 42 against recorded 43 does not. -/
theorem validateCalls_int_witness :
    (validateCalls 64 [addUserRow] [⟨[.int 42]⟩] [⟨lit "uid", lit "bigint"⟩]
        = ⟨[], .returned ()⟩ ↔ (42 : Int) = 42) ∧
    (validateCalls 64 [[(lit "uid", .int64 43)]] [⟨[.int 42]⟩] [⟨lit "uid", lit "bigint"⟩]
        = ⟨[], .returned ()⟩ ↔ (42 : Int) = 43) :=
  ⟨(validateCalls_int 64 ⟨lit "uid", lit "bigint"⟩).2.2.1 addUserRow 42 42 (by decide)
      (by decide) (by decide),
   (validateCalls_int 64 ⟨lit "uid", lit "bigint"⟩).2.2.1 [(lit "uid", .int64 43)] 42 43
      (by decide) (by decide) (by decide)⟩

/-- One iteration of the inner loop, from the operand of its type switch. -/
theorem validateArgs_cons (intBits : Nat) (call : Row) (callIndex : Nat)
    (expectedCalls : List Call) (arg : Argument) (rest : List Argument) (k : Nat) :
    validateArgs intBits call callIndex expectedCalls (arg :: rest) k
      = match expectedAt expectedCalls callIndex k with
        | none => ⟨[], .panicked⟩
        | some expected =>
          (validateValue intBits call arg expected).bind fun _ =>
            validateArgs intBits call callIndex expectedCalls rest (k + 1) := by
  simp only [validateArgs, expectedAt]
  rcases h1 : expectedCalls[callIndex]? with _ | expectedCall
  · rfl
  · rfl

/-- The inner loop examines the expected values at the indexes of the arguments only. -/
theorem validateArgs_expectedAt (intBits : Nat) (call : Row) (callIndex : Nat)
    (expectedCalls expectedCalls2 : List Call) (args : List Argument) (k : Nat)
    (h : ∀ j, j < args.length →
      expectedAt expectedCalls callIndex (k + j) = expectedAt expectedCalls2 callIndex (k + j)) :
    validateArgs intBits call callIndex expectedCalls args k
      = validateArgs intBits call callIndex expectedCalls2 args k := by
  induction args generalizing k with
  | nil => rfl
  | cons arg rest ih =>
    have h0 := h 0 (by simp)
    rw [Nat.add_zero] at h0
    have hrest : ∀ j, j < rest.length →
        expectedAt expectedCalls callIndex (k + 1 + j)
          = expectedAt expectedCalls2 callIndex (k + 1 + j) := by
      intro j hj
      have := h (j + 1) (by simp; omega)
      rw [show k + (j + 1) = k + 1 + j by omega] at this
      exact this
    rw [validateArgs_cons, validateArgs_cons, h0, ih (k + 1) hrest]

/-- The outer loop examines the expected calls at the indexes of the recorded calls
only. -/
theorem validateCallsFrom_expectedAt (intBits : Nat) (expectedCalls expectedCalls2 : List Call)
    (args : List Argument) (calls : List Row) (k : Nat)
    (h : ∀ i j, i < calls.length → j < args.length →
      expectedAt expectedCalls (k + i) j = expectedAt expectedCalls2 (k + i) j) :
    validateCallsFrom intBits expectedCalls args calls k
      = validateCallsFrom intBits expectedCalls2 args calls k := by
  induction calls generalizing k with
  | nil => rfl
  | cons call rest ih =>
    have h0 : ∀ j, j < args.length →
        expectedAt expectedCalls k (0 + j) = expectedAt expectedCalls2 k (0 + j) := by
      intro j hj
      have := h 0 j (by simp) hj
      simpa using this
    have hrest : ∀ i j, i < rest.length → j < args.length →
        expectedAt expectedCalls (k + 1 + i) j = expectedAt expectedCalls2 (k + 1 + i) j := by
      intro i j hi hj
      have := h (i + 1) j (by simp; omega) hj
      rw [show k + (i + 1) = k + 1 + i by omega] at this
      exact this
    simp only [validateCallsFrom,
      validateArgs_expectedAt intBits call k expectedCalls expectedCalls2 args 0 h0,
      ih (k + 1) hrest]

/-- C18, as stated, fails: with no expected call for the recorded call validation
panics without a report, and after an expected call is appended it reports a mismatch;
with no expected value for the argument it panics, and after a value is appended it
reports a mismatch. -/
theorem validateCalls_extra_expected_counterexample :
    validateCalls 64 [[(lit "uid", .int64 1)]] [] [⟨lit "uid", lit "bigint"⟩]
      = ⟨[], .panicked⟩ ∧
    validateCalls 64 [[(lit "uid", .int64 1)]] ([] ++ [⟨[.int64 2]⟩]) [⟨lit "uid", lit "bigint"⟩]
      = ⟨[.errorf (lit "uid") (.int64 2) (.int64 1)], .returned ()⟩ ∧
    validateCalls 64 [[(lit "uid", .int64 1)]] [⟨[]⟩] [⟨lit "uid", lit "bigint"⟩]
      = ⟨[], .panicked⟩ ∧
    validateCalls 64 [[(lit "uid", .int64 1)]] [⟨[] ++ [.int64 2]⟩] [⟨lit "uid", lit "bigint"⟩]
      = ⟨[.errorf (lit "uid") (.int64 2) (.int64 1)], .returned ()⟩ := by
  decide

/-- C18, amended: `validateCalls` examines the expected values only at the indexes of
the recorded calls and of the arguments: two lists of expected calls that agree there
give the same result. Appending expected calls to a list that has at least as many
entries as there are recorded calls, or expected values (of any type) to an expected
call that has at least as many values as there are arguments, leaves the result
unchanged; with a single recorded call, the expected calls after the first are never
examined. -/
theorem validateCalls_ignores_extra_expected (intBits : Nat) (calls : List Row)
    (args : List Argument) :
    (∀ expectedCalls expectedCalls2 : List Call,
      (∀ i j, i < calls.length → j < args.length →
        expectedAt expectedCalls i j = expectedAt expectedCalls2 i j) →
      validateCalls intBits calls expectedCalls args
        = validateCalls intBits calls expectedCalls2 args) ∧
    (∀ expectedCalls extra : List Call, calls.length ≤ expectedCalls.length →
      validateCalls intBits calls (expectedCalls ++ extra) args
        = validateCalls intBits calls expectedCalls args) ∧
    (∀ (pre post : List Call) (values extra : List Value), args.length ≤ values.length →
      validateCalls intBits calls (pre ++ ⟨values ++ extra⟩ :: post) args
        = validateCalls intBits calls (pre ++ ⟨values⟩ :: post) args) ∧
    (∀ (call : Row) (expectedCall : Call) (more : List Call),
      validateCalls intBits [call] (expectedCall :: more) args
        = validateCalls intBits [call] [expectedCall] args) := by
  have hagree : ∀ (rows : List Row) (expectedCalls expectedCalls2 : List Call),
      (∀ i j, i < rows.length → j < args.length →
        expectedAt expectedCalls i j = expectedAt expectedCalls2 i j) →
      validateCalls intBits rows expectedCalls args
        = validateCalls intBits rows expectedCalls2 args := by
    intro rows expectedCalls expectedCalls2 h
    exact validateCallsFrom_expectedAt intBits expectedCalls expectedCalls2 args rows 0
      (fun i j hi hj => by simpa using h i j hi hj)
  refine ⟨hagree calls, fun expectedCalls extra hlen => ?_,
    fun pre post values extra hlen => ?_, fun call expectedCall more => ?_⟩
  · refine hagree calls _ _ fun i j hi _ => ?_
    have hi2 : i < expectedCalls.length := by omega
    simp only [expectedAt, List.getElem?_append_left hi2]
  · refine hagree calls _ _ fun i j _ hj => ?_
    have hj2 : j < values.length := by omega
    simp only [expectedAt, List.getElem?_append]
    by_cases hi : i < pre.length
    · simp only [hi, if_true]
    · simp only [hi, if_false]
      rcases hsub : i - pre.length with _ | n
      · simp only [List.getElem?_cons_zero, List.getElem?_append_left hj2]
      · simp only [List.getElem?_cons_succ]
  · refine hagree [call] _ _ fun i j hi _ => ?_
    have hi0 : i = 0 := by simpa using hi
    subst hi0
    simp only [expectedAt, List.getElem?_cons_zero]

/-- Witness of the amended C18: `add_user` recorded with `(42, true)`; a second
expected call of an unsupported type and a third expected value change nothing. -/
theorem validateCalls_ignores_extra_expected_witness :
    validateCalls 64 [addUserRow] ([⟨[.int 42, .bool true]⟩] ++ [⟨[.float64 0]⟩]) addUser.Args
        = validateCalls 64 [addUserRow] [⟨[.int 42, .bool true]⟩] addUser.Args ∧
    validateCalls 64 [addUserRow] ([] ++ ⟨[.int 42, .bool true] ++ [.float64 0]⟩ :: [])
        addUser.Args
      = validateCalls 64 [addUserRow] ([] ++ ⟨[.int 42, .bool true]⟩ :: []) addUser.Args :=
  ⟨(validateCalls_ignores_extra_expected 64 [addUserRow] addUser.Args).2.1
      [⟨[.int 42, .bool true]⟩] [⟨[.float64 0]⟩] (by decide),
   (validateCalls_ignores_extra_expected 64 [addUserRow] addUser.Args).2.2.1 [] []
      [.int 42, .bool true] [.float64 0] (by decide)⟩

end Pgexpect
